import Mathlib

/-!
# MGNREGA performance viewer: the ingestion pipeline of `src/server/fetcher.js`

A shallow embedding of `fetchFromGov`, `transformRecordsToDistricts`,
`generateBbox`, `upsertDistricts` and `sync`, and of the `/api/lookup` handler
of `src/server/index.js`, followed by the properties established for them.

Modelling conventions.
* A JavaScript string is a `List Char` (`Str`).
* A JavaScript number is a rational (`ℚ`); `NaN` is the `none` of `Option ℚ`.
  Rounding, infinities and the negative zero of IEEE doubles are not modelled.
* A plain object used as a dictionary is an association list holding its own
  properties in insertion order; the properties every plain object inherits
  from `Object.prototype` are modelled where the code reads such an object
  with a key it does not control.
* The remote source and the storage are parameters: a function from offset to
  response, and a write operation on a store that reports success or failure.
-/

namespace Mgnrega

/-- A JavaScript string. -/
abbrev Str := List Char

/-! ## Strings -/

/-- The characters matched by the regular expression class `\s` (ECMAScript
WhiteSpace and LineTerminator). -/
def isWhitespace (c : Char) : Bool :=
  let n := c.toNat
  n == 9 || n == 10 || n == 11 || n == 12 || n == 13 || n == 32 || n == 160 ||
  n == 0x1680 || (0x2000 ≤ n && n ≤ 0x200A) || n == 0x2028 || n == 0x2029 ||
  n == 0x202F || n == 0x205F || n == 0x3000 || n == 0xFEFF

/-- One character of `String.prototype.toLowerCase`: the letters `A`-`Z` go to
`a`-`z`. Characters outside ASCII are left alone (the Unicode case mapping of
the runtime is not modelled). -/
def lowerChar (c : Char) : Char :=
  if 65 ≤ c.toNat ∧ c.toNat ≤ 90 then Char.ofNat (c.toNat + 32) else c

/-- One character of `String.prototype.toUpperCase` (ASCII, as `lowerChar`). -/
def upperChar (c : Char) : Char :=
  if 97 ≤ c.toNat ∧ c.toNat ≤ 122 then Char.ofNat (c.toNat - 32) else c

/-- The method `s.toLowerCase()`. -/
def toLowerCase (s : Str) : Str := s.map lowerChar

/-- The method `s.toUpperCase()`. -/
def toUpperCase (s : Str) : Str := s.map upperChar

/-- Worker of `replaceWhitespace`: `inRun` tells that the previous character was
whitespace, so that the current run has already been replaced. -/
def replaceWhitespaceAux : Bool → Str → Str
  | _, [] => []
  | inRun, c :: cs =>
    if isWhitespace c then
      if inRun then replaceWhitespaceAux true cs else '-' :: replaceWhitespaceAux true cs
    else c :: replaceWhitespaceAux false cs

/-- The call `s.replace(/\s+/g, '-')`: every maximal run of whitespace becomes
one hyphen. -/
def replaceWhitespace (s : Str) : Str := replaceWhitespaceAux false s

/-- The method `s.includes(t)`: `t` occurs in `s` as a contiguous substring. -/
def includes (s t : Str) : Bool :=
  s.tails.any (fun u => t.isPrefixOf u)

/-! ## Values of the loosely typed source -/

/-- A textual field of a raw record: absent, `null`, or a string. -/
inductive JsText where
  | undefined
  | null
  | str (s : Str)
  deriving DecidableEq, Repr

/-- A candidate metric field of a raw record: absent, `null`, a number or a
string. -/
inductive JsVal where
  | undefined
  | null
  | num (q : ℚ)
  | str (s : Str)
  deriving DecidableEq, Repr

/-- Truthiness of a textual field: only a non-empty string is truthy. -/
def JsText.truthy : JsText → Bool
  | .str s => !s.isEmpty
  | _ => false

/-- The expression `t || dflt` on a textual field, for a non-empty default. -/
def JsText.orElse (t : JsText) (dflt : Str) : Str :=
  match t with
  | .str s => if s.isEmpty then dflt else s
  | _ => dflt

/-- The conversion of a textual field inside a template literal. -/
def JsText.toStr : JsText → Str
  | .undefined => "undefined".toList
  | .null => "null".toList
  | .str s => s

/-- Truthiness of a metric field: a non-zero number or a non-empty string. -/
def JsVal.truthy : JsVal → Bool
  | .num q => q != 0
  | .str s => !s.isEmpty
  | _ => false

/-- The operator `x || y`: the left operand when it is truthy, else the right
one. -/
def jsOr (x y : JsVal) : JsVal := if x.truthy then x else y

/-! ## `Number(...)` -/

/-- Decimal digit test. -/
def isDigit (c : Char) : Bool := 48 ≤ c.toNat && c.toNat ≤ 57

/-- Value of a run of decimal digits. -/
def digitsToNat (ds : Str) : Nat := ds.foldl (fun n c => 10 * n + (c.toNat - 48)) 0

/-- Value of a digit in base 16 (also used for bases 2 and 8). -/
def hexVal (c : Char) : Option Nat :=
  let n := c.toNat
  if 48 ≤ n ∧ n ≤ 57 then some (n - 48)
  else if 97 ≤ n ∧ n ≤ 102 then some (n - 87)
  else if 65 ≤ n ∧ n ≤ 70 then some (n - 55)
  else none

/-- A non-empty run of digits of the given base, read to the end of the
string. -/
def parseRadix (base : Nat) (s : Str) : Option ℚ :=
  if s.isEmpty then none
  else
    s.foldl (fun acc c =>
      match acc, hexVal c with
      | some n, some d => if d < base then some (n * base + d) else none
      | _, _ => none) (some 0) |>.map (fun n => (n : ℚ))

/-- The optional exponent part of a decimal literal, applied to the mantissa
`m`; the string must end after it. -/
def parseExponent (m : ℚ) (s : Str) : Option ℚ :=
  match s with
  | [] => some m
  | c :: rest =>
    if c = 'e' ∨ c = 'E' then
      let (neg, ds) :=
        match rest with
        | '-' :: t => (true, t)
        | '+' :: t => (false, t)
        | t => (false, t)
      if ds.isEmpty ∨ !ds.all isDigit then none
      else if neg then some (m / (10 : ℚ) ^ digitsToNat ds)
      else some (m * (10 : ℚ) ^ digitsToNat ds)
    else none

/-- An unsigned decimal literal: digits, an optional fraction, an optional
exponent. -/
def parseUnsignedDecimal (s : Str) : Option ℚ :=
  let ip := s.takeWhile isDigit
  let r := s.dropWhile isDigit
  match r with
  | '.' :: r2 =>
    let fp := r2.takeWhile isDigit
    let r3 := r2.dropWhile isDigit
    if ip.isEmpty ∧ fp.isEmpty then none
    else parseExponent ((digitsToNat (ip ++ fp) : ℚ) / (10 : ℚ) ^ fp.length) r3
  | _ => if ip.isEmpty then none else parseExponent (digitsToNat ip : ℚ) r

/-- The grammar StringNumericLiteral applied by `Number` to a string:
surrounding whitespace is dropped, the empty string is `0`, then a signed
decimal literal or an unsigned literal of base 16, 8 or 2. `none` is `NaN`.
The literal `Infinity` has no value in this model and is read as `NaN`. -/
def stringToNumber (s : Str) : Option ℚ :=
  let t := ((s.dropWhile isWhitespace).reverse.dropWhile isWhitespace).reverse
  match t with
  | [] => some 0
  | '0' :: 'x' :: r => parseRadix 16 r
  | '0' :: 'X' :: r => parseRadix 16 r
  | '0' :: 'o' :: r => parseRadix 8 r
  | '0' :: 'O' :: r => parseRadix 8 r
  | '0' :: 'b' :: r => parseRadix 2 r
  | '0' :: 'B' :: r => parseRadix 2 r
  | '-' :: r => (parseUnsignedDecimal r).map (fun q => -q)
  | '+' :: r => parseUnsignedDecimal r
  | r => parseUnsignedDecimal r

/-- The call `Number(v)`; `none` is `NaN`. -/
def toNumber : JsVal → Option ℚ
  | .undefined => none
  | .null => some 0
  | .num q => some q
  | .str s => stringToNumber s

/-- The test `x > 0` on a possibly-`NaN` number. -/
def isPositive : Option ℚ → Bool
  | some q => decide (0 < q)
  | none => false

/-! ## Raw records -/

/-- A record of the remote source, restricted to the fields the pipeline reads.
The four name and date fields are text; the four candidate metric fields are
loosely typed. -/
structure RawRecord where
  state_name : JsText := .undefined
  district_name : JsText := .undefined
  fin_year : JsText := .undefined
  month : JsText := .undefined
  Total_Households_Worked : JsVal := .undefined
  Total_Individuals_Worked : JsVal := .undefined
  Total_No_of_Active_Workers : JsVal := .undefined
  Persondays_of_Central_Liability_so_far : JsVal := .undefined
  deriving DecidableEq, Repr

/-- Lines 96-102 of `fetcher.js`:
`Number(r.Total_Households_Worked || r.Total_Individuals_Worked ||
r.Total_No_of_Active_Workers || r.Persondays_of_Central_Liability_so_far || 0)`. -/
def extractMetric (r : RawRecord) : Option ℚ :=
  toNumber
    (jsOr (jsOr (jsOr (jsOr r.Total_Households_Worked r.Total_Individuals_Worked)
      r.Total_No_of_Active_Workers) r.Persondays_of_Central_Liability_so_far) (.num 0))

/-- Line 105 of `fetcher.js`: the month key of a record,
`r.fin_year && r.month ? fin_year-month : r.fin_year || r.month || 'current'`. -/
def monthKey (r : RawRecord) : Str :=
  if r.fin_year.truthy && r.month.truthy then
    r.fin_year.toStr ++ '-' :: r.month.toStr
  else if r.fin_year.truthy then r.fin_year.toStr
  else r.month.orElse "current".toList

/-! ## Plain objects used as dictionaries -/

/-- The names every plain object inherits from `Object.prototype`. Reading
`obj[k]` for such a `k` that is not an own property yields the inherited
function or object: a truthy value that is not a number. -/
def objectPrototypeKeys : List Str :=
  ["constructor", "__defineGetter__", "__defineSetter__", "hasOwnProperty",
   "__lookupGetter__", "__lookupSetter__", "isPrototypeOf", "propertyIsEnumerable",
   "toString", "valueOf", "__proto__", "toLocaleString"].map String.toList

/-- The assignment `obj[k] = v` on the own properties of an object: an existing
property keeps its place, a new one is appended. -/
def setProp {β : Type} (k : Str) (v : β) : List (Str × β) → List (Str × β)
  | [] => [(k, v)]
  | (k', v') :: rest => if k' = k then (k, v) :: rest else (k', v') :: setProp k v rest

/-- The value of a canonical array index (`"0"`, `"7"`, `"42"`, at most
`2^32 - 2`), which `Object.entries` lists first; `none` for any other key. -/
def arrayIndex (k : Str) : Option Nat :=
  match k with
  | [] => none
  | c :: cs =>
    if (c :: cs).all isDigit ∧ (c ≠ '0' ∨ cs.isEmpty) ∧ digitsToNat (c :: cs) < 2 ^ 32 - 1 then
      some (digitsToNat (c :: cs))
    else none

/-- The order of `Object.entries(obj)` and `Object.values(obj)` over the own
properties: array indices in ascending numeric order, then the other keys in
insertion order. -/
def objectEntries {β : Type} (obj : List (Str × β)) : List (Str × β) :=
  (obj.filter (fun e => (arrayIndex e.1).isSome)).insertionSort
      (fun a b => (arrayIndex a.1).getD 0 ≤ (arrayIndex b.1).getD 0)
    ++ obj.filter (fun e => (arrayIndex e.1).isNone)

/-! ## `String.prototype.localeCompare` -/

/-- The order of the ASCII whitespace, punctuation, symbols and digits in the
default collation, as code points:
tab, line feed, vertical tab, form feed, carriage return, space, then
`_ - , ; : ! ? . ' " ( ) [ ] { } @ * / \ & # %`, then the symbols
`` ` ^ + < = > | ~ ``, the dollar sign and the digits. -/
def collationOrder : List Nat :=
  [9, 10, 11, 12, 13, 32,
   95, 45, 44, 59, 58, 33, 63, 46, 39, 34, 40, 41, 91, 93, 123, 125, 64, 42, 47, 92, 38, 35, 37,
   96, 94, 43, 60, 61, 62, 124, 126, 36,
   48, 49, 50, 51, 52, 53, 54, 55, 56, 57]

/-- The collation element of a character: its primary weight (at least 1) and
its case weight (0 lower case, 1 upper case); `none` for the control
characters, which the collation ignores. Letters come after the digits and a
letter differs from its other case only in the case weight. Characters outside
ASCII are placed after the letters in code point order (the tailoring of the
runtime for them is not modelled). -/
def collationElement (c : Char) : Option (Nat × Nat) :=
  let n := c.toNat
  if 97 ≤ n ∧ n ≤ 122 then some (100 + (n - 97), 0)
  else if 65 ≤ n ∧ n ≤ 90 then some (100 + (n - 65), 1)
  else if n ∈ collationOrder then some (1 + collationOrder.indexOf n, 0)
  else if n < 128 then none
  else some (1000 + n, 0)

/-- The sort key of a string: the primary weights, a separator below all of
them, then the case weights. Comparing sort keys compares the primary weights
first and the case only when they agree. -/
def sortKey (s : Str) : List Nat :=
  s.filterMap (fun c => (collationElement c).map Prod.fst) ++
    0 :: s.filterMap (fun c => (collationElement c).map Prod.snd)

/-- Lexicographic comparison of two lists of weights: negative, zero or
positive. -/
def compareKeys : List Nat → List Nat → Int
  | [], [] => 0
  | [], _ :: _ => -1
  | _ :: _, [] => 1
  | a :: as, b :: bs => if a < b then -1 else if b < a then 1 else compareKeys as bs

/-- The call `a.localeCompare(b)`, modelled by the default (root) collation of
the runtime: letters are compared before their case, lower case before upper
case, digits before letters, punctuation before digits. The model is that of
the runtime on ASCII strings; the order of other strings is an approximation,
and the order properties below are stated for ASCII keys only. -/
def localeCompare (a b : Str) : Int := compareKeys (sortKey a) (sortKey b)

/-- Plain lexicographic comparison of strings by code unit: `a ≤ b`. -/
def lexLe : Str → Str → Bool
  | [], _ => true
  | _ :: _, [] => false
  | a :: as, b :: bs => if a.toNat < b.toNat then true else if b.toNat < a.toNat then false else lexLe as bs

/-! ## The district entity and `generateBbox` -/

/-- An entry of a district's series. -/
structure SeriesEntry where
  month : Str
  metric : ℚ
  deriving DecidableEq, Repr

/-- The entity returned by the transformer and stored by the upsert
(`models/district.js`). -/
structure District where
  state : Str
  district : Str
  slug : Str
  bbox : List ℚ
  series : List SeriesEntry
  deriving DecidableEq, Repr

/-- The table `knownLocations` of `generateBbox`. -/
def knownLocations : List (Str × List ℚ) :=
  [("uttar pradesh-lucknow".toList, [80.8, 26.7, 81.2, 27.1]),
   ("uttar pradesh-kanpur nagar".toList, [80.2, 26.3, 80.7, 26.6]),
   ("uttar pradesh-varanasi".toList, [82.9, 25.2, 83.1, 25.4]),
   ("uttar pradesh-agra".toList, [77.9, 27.1, 78.2, 27.3]),
   ("uttar pradesh-allahabad".toList, [81.7, 25.3, 82.0, 25.5]),
   ("uttar pradesh-gorakhpur".toList, [83.2, 26.7, 83.5, 26.9]),
   ("uttar pradesh-meerut".toList, [77.6, 28.9, 77.9, 29.1])]

/-- The key computed at line 154 of `fetcher.js`: the lowercased names joined
by a hyphen, then every whitespace run replaced by a hyphen. -/
def bboxKey (state district : Str) : Str :=
  replaceWhitespace (toLowerCase state ++ '-' :: toLowerCase district)

/-- The function `generateBbox`: `knownLocations[key] || []`. The key always
holds a hyphen, so it is never the name of an inherited property. -/
def generateBbox (state district : Str) : List ℚ :=
  ((knownLocations.lookup (bboxKey state district))).getD []

/-- The slug of line 89 of `fetcher.js`. -/
def slugOf (state district : Str) : Str :=
  replaceWhitespace (toLowerCase state) ++ '-' :: replaceWhitespace (toLowerCase district)

/-! ## `transformRecordsToDistricts` -/

/-- The value of the grouping map of `transformRecordsToDistricts`. -/
structure Group where
  state : Str
  district : Str
  slug : Str
  bbox : List ℚ
  seriesMap : List (Str × ℚ)
  deriving DecidableEq, Repr

/-- The grouping key of line 83: state, two bars, district. -/
def groupKey (state district : Str) : Str := state ++ '|' :: '|' :: district

/-- Lines 109-113: the guarded assignment
`if (!seriesMap[month] || seriesMap[month] < metric) seriesMap[month] = metric`.
An own value is replaced when it is falsy or smaller. When the month is not an
own property but names an inherited one, the value read is a truthy
non-number, both tests fail and nothing is assigned. -/
def updateSeriesMap (seriesMap : List (Str × ℚ)) (month : Str) (metric : ℚ) :
    List (Str × ℚ) :=
  match seriesMap.lookup month with
  | some v => if v = 0 ∨ v < metric then setProp month metric seriesMap else seriesMap
  | none => if month ∈ objectPrototypeKeys then seriesMap else setProp month metric seriesMap

/-- Applies `f` to the group stored under `key`. -/
def modifyGroup (key : Str) (f : Group → Group) : List (Str × Group) → List (Str × Group)
  | [] => []
  | (k, g) :: rest => if k = key then (k, f g) :: rest else (k, g) :: modifyGroup key f rest

/-- One iteration of the loop of lines 75-114 on the grouping map. The keys of
the map hold two bars, so none names an inherited property and `!map[key]`
tests the own properties. -/
def transformStep (map : List (Str × Group)) (r : RawRecord) : List (Str × Group) :=
  let state := r.state_name.orElse "Unknown".toList
  let district := r.district_name.orElse "Unknown".toList
  if state = "Unknown".toList ∨ district = "Unknown".toList then map
  else
    let key := groupKey state district
    let map1 :=
      if (map.lookup key).isNone then
        setProp key
          { state := state, district := district, slug := slugOf state district,
            bbox := generateBbox state district, seriesMap := [] } map
      else map
    match extractMetric r with
    | some metric =>
      if 0 < metric then
        modifyGroup key (fun g => { g with seriesMap := updateSeriesMap g.seriesMap (monthKey r) metric }) map1
      else map1
    | none => map1

/-- The comparator handed to `series.sort`: `a` may stay before `b` when
`a.month.localeCompare(b.month)` is not positive. -/
def seriesLe (a b : SeriesEntry) : Prop := localeCompare a.month b.month ≤ 0

instance : DecidableRel seriesLe := fun a b => inferInstanceAs (Decidable (localeCompare a.month b.month ≤ 0))

/-- Lines 118-123: the entries of the series map, sorted with `localeCompare`.
`Array.prototype.sort` is stable; insertion sort is the stable sort used
here. -/
def buildSeries (seriesMap : List (Str × ℚ)) : List SeriesEntry :=
  ((objectEntries seriesMap).map (fun e => { month := e.1, metric := e.2 })).insertionSort seriesLe

/-- Lines 117-131: the district entity of a group. -/
def toDistrict (d : Group) : District :=
  { state := d.state, district := d.district, slug := d.slug, bbox := d.bbox,
    series := buildSeries d.seriesMap }

/-- The function `transformRecordsToDistricts` on a record list (the `null`
that `sync` may hand over is not a list and gives `[]` as the empty list
does). No key of the grouping map is an array index, so `Object.values(map)`
lists the groups in insertion order. -/
def transformRecordsToDistricts (records : List RawRecord) : List District :=
  if records.isEmpty then []
  else ((records.foldl transformStep []).map Prod.snd).map toDistrict

/-! ## Concrete records used in the examples -/

/-- A record of Lucknow, Uttar Pradesh, with the given fiscal year, month and
`Total_Households_Worked`. -/
def lucknowRecord (finYear month : JsText) (households : JsVal) : RawRecord :=
  { state_name := .str "Uttar Pradesh".toList, district_name := .str "Lucknow".toList,
    fin_year := finYear, month := month, Total_Households_Worked := households }

/-- A record of Lucknow in the fiscal year 2023-2024. -/
def lucknow2023 (month : String) (households : ℚ) : RawRecord :=
  lucknowRecord (.str "2023-2024".toList) (.str month.toList) (.num households)

/-- The claim that a textual field is missing: absent, `null` or empty. -/
def JsText.isMissing : JsText → Bool
  | .undefined => true
  | .null => true
  | .str s => s.isEmpty

/-- The relation "differ only in letter case and in repeated whitespace": the
two names run in parallel through letters that agree up to case and through
whitespace runs that may have different (positive) lengths. Whitespace is
never added where the other name has none. -/
inductive SameUpToCaseAndRuns : Str → Str → Prop
  | nil : SameUpToCaseAndRuns [] []
  | letter (c c' : Char) (s t : Str) (hc : isWhitespace c = false)
      (hc' : isWhitespace c' = false) (h : lowerChar c = lowerChar c') :
      SameUpToCaseAndRuns s t → SameUpToCaseAndRuns (c :: s) (c' :: t)
  | space (w w' : Char) (s t : Str) (hw : isWhitespace w = true)
      (hw' : isWhitespace w' = true) :
      SameUpToCaseAndRuns s t → SameUpToCaseAndRuns (w :: s) (w' :: t)
  | repeatLeft (w v : Char) (s t : Str) (hw : isWhitespace w = true)
      (hv : isWhitespace v = true) :
      SameUpToCaseAndRuns (v :: s) t → SameUpToCaseAndRuns (w :: v :: s) t
  | repeatRight (w v : Char) (s t : Str) (hw : isWhitespace w = true)
      (hv : isWhitespace v = true) :
      SameUpToCaseAndRuns s (v :: t) → SameUpToCaseAndRuns s (w :: v :: t)

/-- The grouping key a record is filed under (lines 76-83); `none` when line 80
skips the record. -/
def recordKey (r : RawRecord) : Option Str :=
  let state := r.state_name.orElse "Unknown".toList
  let district := r.district_name.orElse "Unknown".toList
  if state = "Unknown".toList ∨ district = "Unknown".toList then none
  else some (groupKey state district)

/-- The effect of one record on the series map of its group (lines 96-113). -/
def recordSeriesStep (seriesMap : List (Str × ℚ)) (r : RawRecord) : List (Str × ℚ) :=
  match extractMetric r with
  | some metric => if 0 < metric then updateSeriesMap seriesMap (monthKey r) metric else seriesMap
  | none => seriesMap

/-- The grouping key of a returned entity. -/
def District.key (D : District) : Str := groupKey D.state D.district

/-- Every entry of the grouping map is filed under the key of its own names, and
its slug and bounding box are those of its names. -/
def WellKeyed (map : List (Str × Group)) : Prop :=
  ∀ e ∈ map, e.1 = groupKey e.2.state e.2.district ∧
    e.2.slug = slugOf e.2.state e.2.district ∧
    e.2.bbox = generateBbox e.2.state e.2.district

/-- The state of the series map of a group after the records `seen`: months are
unique, every stored value is the positive metric of a seen record of that
month, and every seen record with a positive metric and a month that names no
inherited property is covered by a stored value at least as large. -/
def SeriesMapInv (seriesMap : List (Str × ℚ)) (seen : List RawRecord) : Prop :=
  (seriesMap.map Prod.fst).Nodup ∧
  (∀ e ∈ seriesMap, 0 < e.2 ∧ ∃ r ∈ seen, monthKey r = e.1 ∧ extractMetric r = some e.2) ∧
  (∀ r ∈ seen, ∀ q, extractMetric r = some q → 0 < q → monthKey r ∉ objectPrototypeKeys →
    ∃ v, (monthKey r, v) ∈ seriesMap ∧ q ≤ v)

/-- The three Lucknow records of the scenario: April 5000, April 5200, May
6000, all of the fiscal year 2023-2024. -/
def lucknowScenario : List RawRecord :=
  [lucknow2023 "April" 5000, lucknow2023 "April" 5200, lucknow2023 "May" 6000]

/-! ## `fetchFromGov` -/

/-- The answer of the remote source to one page request. `failed` is a rejected
`axios.get` (network error, timeout, non-success status). A body without
`data` or without `records` leaves the loop as the empty page does (line 31)
and is modelled as the empty page. -/
inductive Response where
  | failed
  | page (records : List RawRecord)
  deriving DecidableEq, Repr

/-- The page size `limit` of line 15. -/
def limit : Nat := 10

/-- The page bound `maxPages` of line 16. -/
def maxPages : Nat := 1500

/-- The filter of lines 37-39:
`r.state_name && r.state_name.toUpperCase().includes('UTTAR PRADESH')`. -/
def isUttarPradesh (r : RawRecord) : Bool :=
  match r.state_name with
  | .str s => !s.isEmpty && includes (toUpperCase s) "UTTAR PRADESH".toList
  | _ => false

/-- The template literal of line 45: district, fiscal year and month joined by
hyphens. -/
def comboKey (r : RawRecord) : Str :=
  r.district_name.toStr ++ '-' :: (r.fin_year.toStr ++ '-' :: r.month.toStr)

/-- The size of the set `uniqueCombos` of line 45. -/
def uniqueCombos (allUpRecords : List RawRecord) : Nat :=
  ((allUpRecords.map comboKey).dedup).length

/-- What a run of `fetchFromGov` did and returned: the offsets requested, in
order, and the returned record list (`none` is `null`). -/
structure FetchResult where
  requests : List Nat
  records : Option (List RawRecord)
  deriving DecidableEq, Repr

/-- Line 60: `allUpRecords.length > 0 ? allUpRecords : null`. -/
def fetchReturn (allUpRecords : List RawRecord) : Option (List RawRecord) :=
  if 0 < allUpRecords.length then some allUpRecords else none

/-- The loop of lines 18-57 with `pagesLeft` iterations to go, at the given
offset, with the matching records and the requests made so far. A failed
request is caught at line 61 and `null` is returned. -/
def fetchLoop (remote : Nat → Response) :
    (pagesLeft : Nat) → (offset : Nat) → (allUpRecords : List RawRecord) →
      (requests : List Nat) → FetchResult
  | 0, _, allUpRecords, requests => ⟨requests, fetchReturn allUpRecords⟩
  | pagesLeft + 1, offset, allUpRecords, requests =>
    match remote offset with
    | .failed => ⟨requests ++ [offset], none⟩
    | .page records =>
      if records.length = 0 then ⟨requests ++ [offset], fetchReturn allUpRecords⟩
      else
        let all := allUpRecords ++ records.filter isUttarPradesh
        if 300 ≤ all.length ∧ 200 ≤ uniqueCombos all then
          ⟨requests ++ [offset], fetchReturn all⟩
        else fetchLoop remote pagesLeft (offset + limit) all (requests ++ [offset])

/-- The function `fetchFromGov` against a remote source that answers a request
by its offset. -/
def fetchFromGov (remote : Nat → Response) : FetchResult :=
  fetchLoop remote maxPages 0 [] []

/-- The matching records of the pages before page index `p`, in order: the
value of `allUpRecords` when page `p` is requested. -/
def matchesBefore (pages : Nat → List RawRecord) (p : Nat) : List RawRecord :=
  (List.range p).flatMap (fun i => (pages (limit * i)).filter isUttarPradesh)

/-- The loop stops at page index `k`: the page is empty, or with its matching
records added there are at least 300 matches and at least 200 distinct
combination strings. -/
def stopsAt (pages : Nat → List RawRecord) (k : Nat) : Prop :=
  (pages (limit * k)).length = 0 ∨
    (300 ≤ (matchesBefore pages (k + 1)).length ∧ 200 ≤ uniqueCombos (matchesBefore pages (k + 1)))

/-- The number of distinct (district_name, fin_year, month) triples among the
records. -/
def distinctTriples (allUpRecords : List RawRecord) : Nat :=
  ((allUpRecords.map (fun r => (r.district_name, r.fin_year, r.month))).dedup).length

/-- The stopping condition as the claim words it, counting distinct triples. -/
def stopsAtByTriples (pages : Nat → List RawRecord) (k : Nat) : Prop :=
  (pages (limit * k)).length = 0 ∨
    (300 ≤ (matchesBefore pages (k + 1)).length ∧
      200 ≤ distinctTriples (matchesBefore pages (k + 1)))

/-- The offsets of the first `n` pages: `0, 10, 20, ...`. -/
def pageOffsets (n : Nat) : List Nat := (List.range n).map (fun i => limit * i)

instance (pages : Nat → List RawRecord) (k : Nat) : Decidable (stopsAt pages k) :=
  inferInstanceAs (Decidable (_ ∨ _))

instance (pages : Nat → List RawRecord) (k : Nat) : Decidable (stopsAtByTriples pages k) :=
  inferInstanceAs (Decidable (_ ∨ _))

/-- A record of Uttar Pradesh with the given district, fiscal year and month. -/
def upRecord (district finYear month : Str) : RawRecord :=
  { state_name := .str "UTTAR PRADESH".toList, district_name := .str district,
    fin_year := .str finYear, month := .str month }

/-- A page of 300 records of Uttar Pradesh: 198 districts `x`, `xx`, `xxx`, ...
of the year `2023`, the two records (`a-b`, `c`) and (`a`, `b-c`), whose
combination strings are both `a-b-c-May`, and 100 repetitions of the first
record. -/
def collidingPage : List RawRecord :=
  (List.range 198).map
      (fun i => upRecord (List.replicate (i + 1) 'x') "2023".toList "May".toList) ++
    [upRecord "a-b".toList "c".toList "May".toList,
     upRecord "a".toList "b-c".toList "May".toList] ++
    List.replicate 100 (upRecord "x".toList "2023".toList "May".toList)

/-- A source whose first page is `collidingPage` and whose other pages are
empty. -/
def collidingPages (offset : Nat) : List RawRecord :=
  if offset = 0 then collidingPage else []

/-- A source with one record of Lucknow on the first page and nothing
after. -/
def onePageSource (offset : Nat) : List RawRecord :=
  if offset = 0 then [upRecord "Lucknow".toList "2023-2024".toList "May".toList] else []

/-- The pages of a remote source: the records of an answered request, no
records for a failed one. -/
def pagesOf (remote : Nat → Response) (offset : Nat) : List RawRecord :=
  match remote offset with
  | .page records => records
  | .failed => []

/-- A source whose first page holds one record of Lucknow and whose second
request fails. -/
def failingSource (offset : Nat) : Response :=
  if offset = 0 then .page [upRecord "Lucknow".toList "2023-2024".toList "May".toList]
  else .failed

/-! ## `upsertDistricts` and `sync` -/

/-- What a run of `upsertDistricts` did and returned: the counter `upserted`,
the store afterwards, and the entities whose write was attempted, in order. -/
structure UpsertRun (σ : Type) where
  upserted : Nat
  store : σ
  attempted : List District

/-- The loop of lines 160-169 over the remaining entities. `updateOne st d`
stands for `await District.updateOne({ slug }, { $set: ... }, { upsert: true })`
on the store `st` with the slug and the four fields of `d` (`d.bbox || []` and
`d.series || []` are `d.bbox` and `d.series`, arrays being truthy): it tells
whether the promise resolved and gives the store afterwards. A rejection is
caught at line 166 and the counter is left alone. -/
def upsertLoop {σ : Type} (updateOne : σ → District → Bool × σ) :
    List District → UpsertRun σ → UpsertRun σ
  | [], run => run
  | d :: rest, run =>
    upsertLoop updateOne rest
      ⟨if (updateOne run.store d).1 then run.upserted + 1 else run.upserted,
        (updateOne run.store d).2, run.attempted ++ [d]⟩

/-- The function `upsertDistricts` on a store. -/
def upsertDistricts {σ : Type} (updateOne : σ → District → Bool × σ) (st : σ)
    (districts : List District) : UpsertRun σ :=
  upsertLoop updateOne districts ⟨0, st, []⟩

/-- The outcomes of the writes of a run, in order: `true` for a resolved
promise. -/
def writeOutcomes {σ : Type} (updateOne : σ → District → Bool × σ) :
    σ → List District → List Bool
  | _, [] => []
  | st, d :: rest => (updateOne st d).1 :: writeOutcomes updateOne (updateOne st d).2 rest

/-- The summary returned by `sync`. -/
structure Summary where
  source : Str
  count : Nat
  upserted : Nat
  deriving DecidableEq, Repr

/-- What a run of `sync` did and returned: the summary, the store afterwards,
the offsets requested and the entities whose write was attempted. -/
structure SyncRun (σ : Type) where
  summary : Summary
  store : σ
  requests : List Nat
  attempted : List District

/-- The function `sync` (lines 173-186). `transformRecordsToDistricts(null)` is
`[]` by the guard of line 67. -/
def sync {σ : Type} (remote : Nat → Response) (updateOne : σ → District → Bool × σ)
    (st : σ) : SyncRun σ :=
  let fetched := fetchFromGov remote
  let districts :=
    match fetched.records with
    | none => []
    | some records => transformRecordsToDistricts records
  if districts.length = 0 then
    ⟨⟨"none".toList, 0, 0⟩, st, fetched.requests, []⟩
  else
    let run := upsertDistricts updateOne st districts
    ⟨⟨if fetched.records.isSome then "data.gov.in".toList else "none".toList,
        districts.length, run.upserted⟩,
      run.store, fetched.requests, run.attempted⟩

/-- The fields of a stored document beside its slug. -/
structure Document where
  state : Str
  district : Str
  bbox : List ℚ
  series : List SeriesEntry
  deriving DecidableEq, Repr

/-- Modelled from the spec: the storage collaborator of section 4.3, a map from
slug to document. -/
abbrev Store := Str → Option Document

/-- The `$set` part of the update of line 163. -/
def District.document (d : District) : Document :=
  ⟨d.state, d.district, d.bbox, d.series⟩

/-- Modelled from the spec: `updateOne` with `upsert: true` on a store without
write failures (section 4.3): the document under the slug of `d` is created or
has its four fields replaced, the other documents stay. -/
def storeUpsert (st : Store) (d : District) : Bool × Store :=
  (true, fun slug => if slug = d.slug then some d.document else st slug)

/-- The empty store. -/
def emptyStore : Store := fun _ => none

/-- The districts `sync` hands to `upsertDistricts`: the transformed records of
the collection, none when the collector returned `null`. -/
def collectedDistricts (remote : Nat → Response) : List District :=
  match (fetchFromGov remote).records with
  | none => []
  | some records => transformRecordsToDistricts records

/-- A storage whose writes fail for the entities of the given slug and succeed
for the others; the store is the list of the slugs written. -/
def failingFor (slug : Str) (st : List Str) (d : District) : Bool × List Str :=
  if d.slug = slug then (false, st) else (true, st ++ [d.slug])

/-! ## The handler of `/api/lookup` -/

/-- The reply of the handler. -/
inductive LookupReply where
  | badRequest
  | notFound
  | ok (d : District)
  deriving DecidableEq, Repr

/-- The predicate of lines 40-44 of `index.js` on a stored district (`d.bbox` is
an array, hence truthy). -/
def bboxMatches (lat lon : ℚ) (d : District) : Bool :=
  match d.bbox with
  | [w, s, e, n] => decide (lon ≥ w) && decide (lon ≤ e) && decide (lat ≥ s) && decide (lat ≤ n)
  | _ => false

/-- The handler of `GET /api/lookup` (lines 32-47 of `index.js`) on the parsed
coordinates (`none` is the `NaN` of `parseFloat`) and on the list `all` of
stored districts returned by `District.find`. -/
def lookupHandler (all : List District) (lat lon : Option ℚ) : LookupReply :=
  match lat, lon with
  | some lat, some lon =>
    match all.find? (bboxMatches lat lon) with
    | some d => .ok d
    | none => .notFound
  | _, _ => .badRequest

/-- The claim's condition on a stored district: its bbox has exactly four
numbers `[w, s, e, n]` with `w ≤ lon ≤ e` and `s ≤ lat ≤ n`. -/
def InsideBbox (lat lon : ℚ) (d : District) : Prop :=
  ∃ w s e n, d.bbox = [w, s, e, n] ∧ w ≤ lon ∧ lon ≤ e ∧ s ≤ lat ∧ lat ≤ n

/-- A stored district with the given slug and bbox. -/
def storedDistrict (slug : String) (bbox : List ℚ) : District :=
  ⟨"Uttar Pradesh".toList, slug.toList, slug.toList, bbox, []⟩

/-! ## Month keys on which `localeCompare` is the code unit order -/

/-- An upper-case ASCII letter. -/
def isUpperAscii (c : Char) : Bool := 65 ≤ c.toNat && c.toNat ≤ 90

/-- A lower-case ASCII letter. -/
def isLowerAscii (c : Char) : Bool := 97 ≤ c.toNat && c.toNat ≤ 122

/-- A character of a plain key: a hyphen, a digit or an ASCII letter. -/
def isPlainChar (c : Char) : Bool :=
  c.toNat == 45 || isDigit c || isUpperAscii c || isLowerAscii c

/-- A plain key: made of hyphens, digits and ASCII letters only. -/
def plainKey (s : Str) : Bool := s.all isPlainChar

/-- Two keys are case-aligned when at no position one has an upper-case letter
and the other a lower-case letter. -/
def caseAligned : Str → Str → Bool
  | a :: as, b :: bs =>
    !(isUpperAscii a && isLowerAscii b) && !(isLowerAscii a && isUpperAscii b) &&
      caseAligned as bs
  | _, _ => true

/-- A month key of the form `YYYY-YYYY-Month`: four digits, a hyphen, four
digits, a hyphen, an upper-case letter and lower-case letters. -/
def isFiscalMonthKey : Str → Bool
  | y1 :: y2 :: y3 :: y4 :: h1 :: z1 :: z2 :: z3 :: z4 :: h2 :: m :: rest =>
    isDigit y1 && isDigit y2 && isDigit y3 && isDigit y4 && h1.toNat == 45 &&
    isDigit z1 && isDigit z2 && isDigit z3 && isDigit z4 && h2.toNat == 45 &&
    isUpperAscii m && rest.all isLowerAscii
  | _ => false

/-- The primary weight of the code point of a plain character. -/
def plainWeight (n : Nat) : Nat :=
  if 97 ≤ n then 100 + (n - 97)
  else if 65 ≤ n then 100 + (n - 65)
  else if n = 45 then 8
  else n - 9

/-- Every series map of the grouping map has pairwise distinct months. -/
def MonthsDistinct (map : List (Str × Group)) : Prop :=
  ∀ e ∈ map, (e.2.seriesMap.map Prod.fst).Nodup

/-- Records of Lucknow for May, August and April of 2023-2024 and for April of
2024-2025. -/
def fourMonths : List RawRecord :=
  [lucknow2023 "May" 6000, lucknow2023 "August" 7000, lucknow2023 "April" 5200,
   lucknowRecord (.str "2024-2025".toList) (.str "April".toList) (.num 4000)]

/-- The district returned for `fourMonths`. -/
def fourMonthsDistrict : District :=
  ⟨"Uttar Pradesh".toList, "Lucknow".toList, "uttar-pradesh-lucknow".toList, [],
    [⟨"2023-2024-April".toList, 5200⟩, ⟨"2023-2024-August".toList, 7000⟩,
     ⟨"2023-2024-May".toList, 6000⟩, ⟨"2024-2025-April".toList, 4000⟩]⟩

/-! ## Properties

### Sorting with `localeCompare` -/

theorem compareKeys_swap (a b : List Nat) : compareKeys b a = - compareKeys a b := by
  induction a generalizing b with
  | nil => cases b <;> simp [compareKeys]
  | cons x xs ih =>
    cases b with
    | nil => simp [compareKeys]
    | cons y ys =>
      simp only [compareKeys]
      rcases Nat.lt_trichotomy x y with h | h | h
      · have h' : ¬ y < x := by omega
        simp [h, h']
      · subst h
        simp [ih]
      · have h' : ¬ x < y := by omega
        simp [h, h']

theorem compareKeys_trans (a b c : List Nat) (hab : compareKeys a b ≤ 0)
    (hbc : compareKeys b c ≤ 0) : compareKeys a c ≤ 0 := by
  induction a generalizing b c with
  | nil => cases c <;> simp [compareKeys]
  | cons x xs ih =>
    cases b with
    | nil => simp [compareKeys] at hab
    | cons y ys =>
      cases c with
      | nil => simp [compareKeys] at hbc
      | cons z zs =>
        simp only [compareKeys] at hab hbc ⊢
        by_cases hxy : x < y
        · by_cases hyz : y < z
          · have : x < z := by omega
            simp [this]
          · by_cases hzy : z < y
            · simp [hyz, hzy] at hbc
            · have : x < z := by omega
              simp [this]
        · by_cases hyx : y < x
          · simp [hxy, hyx] at hab
          · have hxy' : x = y := by omega
            subst hxy'
            by_cases hxz : x < z
            · simp [hxz]
            · by_cases hzx : z < x
              · simp [hxz, hzx] at hbc
              · simp only [hxy, hyx, hxz, hzx, if_false] at hab hbc ⊢
                exact ih ys zs hab hbc

theorem seriesLe_total (a b : SeriesEntry) : seriesLe a b ∨ seriesLe b a := by
  unfold seriesLe localeCompare
  have h := compareKeys_swap (sortKey a.month) (sortKey b.month)
  omega

theorem seriesLe_trans (a b c : SeriesEntry) (hab : seriesLe a b) (hbc : seriesLe b c) :
    seriesLe a c := by
  unfold seriesLe localeCompare at *
  exact compareKeys_trans _ _ _ hab hbc

theorem buildSeries_sorted (sm : List (Str × ℚ)) : (buildSeries sm).Sorted seriesLe := by
  haveI : IsTotal SeriesEntry seriesLe := ⟨seriesLe_total⟩
  haveI : IsTrans SeriesEntry seriesLe := ⟨seriesLe_trans⟩
  exact List.sorted_insertionSort seriesLe _

theorem mem_transform_series (rs : List RawRecord) (D : District)
    (hD : D ∈ transformRecordsToDistricts rs) : ∃ g : Group, D = toDistrict g := by
  unfold transformRecordsToDistricts at hD
  split at hD
  · simp at hD
  · simp only [List.mem_map] at hD
    obtain ⟨g, _, hg⟩ := hD
    exact ⟨g, hg.symm⟩

/-! ### Series order under `localeCompare` (C2, C8) -/

/-- C2, counterexample: a record without fiscal year and month (month key
`current`) and a record of month `Dec` give the series `[current, Dec]`, which
is not in plain lexicographic order, `D` being below `c` in code unit order. -/
theorem series_not_lexicographic :
    (transformRecordsToDistricts
        [lucknowRecord .undefined (.str "Dec".toList) (.num 20),
         lucknowRecord .undefined .undefined (.num 10)]).map
      (fun D => D.series.map (fun e => e.month)) = [["current".toList, "Dec".toList]] ∧
    lexLe "current".toList "Dec".toList = false ∧
    ¬ List.Sorted (fun a b => lexLe a b = true) ["current".toList, "Dec".toList] := by
  decide

/-- C8, the code at the failing input: the records of May and August 2023-2024
come out with August before May. -/
theorem series_august_before_may :
    (transformRecordsToDistricts [lucknow2023 "May" 6000, lucknow2023 "August" 7000]).map
      (fun D => D.series) =
      [[⟨"2023-2024-August".toList, 7000⟩, ⟨"2023-2024-May".toList, 6000⟩]] := by
  decide

/-! ### Metric extraction (C6) -/

/-- C6, the code at the failing input: with `Total_Households_Worked` the string
`"0"` and `Total_Individuals_Worked` the number 500 the extracted metric is 0,
the string `"0"` being truthy. -/
theorem extractMetric_string_zero :
    extractMetric { Total_Households_Worked := .str "0".toList,
                    Total_Individuals_Worked := .num 500 } = some 0 := by
  decide

/-! ### Bounding boxes (C7) -/

theorem replaceWhitespaceAux_no_whitespace (b : Bool) (s : Str) :
    ∀ c ∈ replaceWhitespaceAux b s, isWhitespace c = false := by
  induction s generalizing b with
  | nil => simp [replaceWhitespaceAux]
  | cons x xs ih =>
    intro c hc
    simp only [replaceWhitespaceAux] at hc
    by_cases hx : isWhitespace x = true
    · rw [if_pos hx] at hc
      split at hc
      · exact ih _ c hc
      · rcases List.mem_cons.1 hc with h | h
        · subst h; decide
        · exact ih _ c h
    · rw [if_neg hx] at hc
      rcases List.mem_cons.1 hc with h | h
      · subst h; simpa using hx
      · exact ih _ c h

theorem lookup_eq_none_of_forall_ne {β : Type} (k : Str) (l : List (Str × β))
    (h : ∀ e ∈ l, e.1 ≠ k) : l.lookup k = none := by
  induction l with
  | nil => rfl
  | cons e es ih =>
    obtain ⟨k', v⟩ := e
    have hne : k' ≠ k := h (k', v) (List.mem_cons_self _ _)
    have hbeq : (k == k') = false := by simpa using fun h' => hne h'.symm
    simp only [List.lookup, hbeq]
    exact ih (fun e he => h e (List.mem_cons_of_mem _ he))

/-- The lookup of `generateBbox` never succeeds: the computed key holds no
whitespace, every key of the table holds a space. -/
theorem generateBbox_eq_nil (state district : Str) : generateBbox state district = [] := by
  have hkeys : ∀ e ∈ knownLocations, ' ' ∈ e.1 := by decide
  have hnone : knownLocations.lookup (bboxKey state district) = none := by
    apply lookup_eq_none_of_forall_ne
    intro e he heq
    have hsp := hkeys e he
    rw [heq] at hsp
    have := replaceWhitespaceAux_no_whitespace false _ ' ' hsp
    exact absurd this (by decide)
  simp [generateBbox, hnone]

/-- C7, the code at the failing input: the table holds
`[80.8, 26.7, 81.2, 27.1]` under `uttar pradesh-lucknow`, and
`generateBbox('Uttar Pradesh', 'Lucknow')` is empty, the key looked up being
`uttar-pradesh-lucknow`. -/
theorem generateBbox_lucknow_empty :
    knownLocations.lookup "uttar pradesh-lucknow".toList = some [80.8, 26.7, 81.2, 27.1] ∧
    bboxKey "Uttar Pradesh".toList "Lucknow".toList = "uttar-pradesh-lucknow".toList ∧
    generateBbox "Uttar Pradesh".toList "Lucknow".toList = [] :=
  ⟨rfl, by decide, generateBbox_eq_nil _ _⟩

/-! ### Slug collisions (C5) -/

/-- C5, the code at the failing input: the same district in two casings of the
state name gives two entities with the one slug `uttar-pradesh-lucknow`. -/
theorem slug_not_unique :
    (transformRecordsToDistricts
        [{ state_name := .str "Uttar Pradesh".toList, district_name := .str "Lucknow".toList },
         { state_name := .str "UTTAR PRADESH".toList, district_name := .str "Lucknow".toList }]).map
      (fun D => (D.state, D.slug)) =
      [("Uttar Pradesh".toList, "uttar-pradesh-lucknow".toList),
       ("UTTAR PRADESH".toList, "uttar-pradesh-lucknow".toList)] := by
  decide

/-! ### Records without names (C9) -/

theorem transformStep_of_missing (map : List (Str × Group)) (r : RawRecord)
    (h : (r.state_name.isMissing || r.district_name.isMissing) = true) :
    transformStep map r = map := by
  have key : r.state_name.orElse "Unknown".toList = "Unknown".toList ∨
      r.district_name.orElse "Unknown".toList = "Unknown".toList := by
    rcases Bool.or_eq_true _ _ ▸ h with h1 | h1
    · left
      cases hs : r.state_name with
      | undefined => rfl
      | null => rfl
      | str s => simp [hs, JsText.isMissing] at h1; simp [JsText.orElse, h1]
    · right
      cases hs : r.district_name with
      | undefined => rfl
      | null => rfl
      | str s => simp [hs, JsText.isMissing] at h1; simp [JsText.orElse, h1]
  unfold transformStep
  simp only [key, if_true]

theorem foldl_transformStep_filter (rs : List RawRecord) (map : List (Str × Group)) :
    (rs.filter (fun r => !(r.state_name.isMissing || r.district_name.isMissing))).foldl
      transformStep map = rs.foldl transformStep map := by
  induction rs generalizing map with
  | nil => rfl
  | cons r rest ih =>
    by_cases h : (r.state_name.isMissing || r.district_name.isMissing) = true
    · simp only [List.filter, h, Bool.not_true, List.foldl_cons, transformStep_of_missing map r h]
      exact ih map
    · simp only [Bool.not_eq_true] at h
      simp only [List.filter, h, Bool.not_false, List.foldl_cons]
      exact ih _

/-- C9: records whose state name or district name is missing (absent, `null`
or empty) are discarded: the result on a record list is the result on the list
without them. -/
theorem transform_ignores_missing_names (rs : List RawRecord) :
    transformRecordsToDistricts rs =
      transformRecordsToDistricts
        (rs.filter (fun r => !(r.state_name.isMissing || r.district_name.isMissing))) := by
  unfold transformRecordsToDistricts
  rw [foldl_transformStep_filter]
  by_cases h1 : rs.isEmpty = true
  · have : rs = [] := by simpa using h1
    subst this
    rfl
  · by_cases h2 : (rs.filter (fun r => !(r.state_name.isMissing || r.district_name.isMissing))).isEmpty = true
    · have h3 := foldl_transformStep_filter rs []
      have h4 : rs.filter (fun r => !(r.state_name.isMissing || r.district_name.isMissing)) = [] := by
        simpa using h2
      rw [h4] at h3
      simp only [List.foldl_nil] at h3
      rw [if_neg h1, if_pos h2, ← h3]
      rfl
    · rw [if_neg h1, if_neg h2]

/-! ### Slugs (C3) -/

theorem isWhitespace_false_of_letter (c : Char) (h : 65 ≤ c.toNat ∧ c.toNat ≤ 122) :
    isWhitespace c = false := by
  unfold isWhitespace
  simp
  omega

theorem toNat_ofNat_small (n : Nat) (h : n < 55296) : (Char.ofNat n).toNat = n := by
  have hv : n.isValidChar := Or.inl h
  simp only [Char.ofNat, dif_pos hv, Char.ofNatAux, Char.toNat]
  simp [UInt32.toNat]

theorem isWhitespace_lowerChar (c : Char) : isWhitespace (lowerChar c) = isWhitespace c := by
  unfold lowerChar
  split
  · rename_i h
    rw [isWhitespace_false_of_letter c (by omega)]
    apply isWhitespace_false_of_letter
    rw [toNat_ofNat_small _ (by omega)]
    omega
  · rfl

theorem lowerChar_of_whitespace (c : Char) (h : isWhitespace c = true) : lowerChar c = c := by
  unfold lowerChar
  split
  · rename_i h'
    rw [isWhitespace_false_of_letter c (by omega)] at h
    cases h
  · rfl

theorem replaceWhitespaceAux_congr (s t : Str) (h : SameUpToCaseAndRuns s t) (inRun : Bool) :
    replaceWhitespaceAux inRun (toLowerCase s) = replaceWhitespaceAux inRun (toLowerCase t) := by
  induction h generalizing inRun with
  | nil => rfl
  | letter c c' s t hc hc' h _ ih =>
    have h1 : isWhitespace (lowerChar c) = false := by rw [isWhitespace_lowerChar]; exact hc
    have h2 : isWhitespace (lowerChar c') = false := by rw [isWhitespace_lowerChar]; exact hc'
    simp only [toLowerCase, List.map_cons, replaceWhitespaceAux, h1, h2, Bool.false_eq_true,
      if_false]
    rw [h]
    exact congrArg _ (ih false)
  | space w w' s t hw hw' _ ih =>
    have h1 : isWhitespace (lowerChar w) = true := by rw [isWhitespace_lowerChar]; exact hw
    have h2 : isWhitespace (lowerChar w') = true := by rw [isWhitespace_lowerChar]; exact hw'
    have ih' := ih true
    simp only [toLowerCase] at ih'
    simp only [toLowerCase, List.map_cons, replaceWhitespaceAux, h1, h2, if_true, ih']
  | repeatLeft w v s t hw hv _ ih =>
    have h1 : isWhitespace (lowerChar w) = true := by rw [isWhitespace_lowerChar]; exact hw
    have h2 : isWhitespace (lowerChar v) = true := by rw [isWhitespace_lowerChar]; exact hv
    rw [← ih inRun]
    simp only [toLowerCase, List.map_cons, replaceWhitespaceAux, h1, h2, if_true]
  | repeatRight w v s t hw hv _ ih =>
    have h1 : isWhitespace (lowerChar w) = true := by rw [isWhitespace_lowerChar]; exact hw
    have h2 : isWhitespace (lowerChar v) = true := by rw [isWhitespace_lowerChar]; exact hv
    rw [ih inRun]
    simp only [toLowerCase, List.map_cons, replaceWhitespaceAux, h1, h2, if_true]

theorem slugOf_congr (s s' d d' : Str) (hs : SameUpToCaseAndRuns s s')
    (hd : SameUpToCaseAndRuns d d') : slugOf s d = slugOf s' d' := by
  unfold slugOf replaceWhitespace
  rw [replaceWhitespaceAux_congr s s' hs false, replaceWhitespaceAux_congr d d' hd false]

/-! ### Own properties of a plain object -/

theorem lookup_eq_none_iff {β : Type} (k : Str) (l : List (Str × β)) :
    l.lookup k = none ↔ k ∉ l.map Prod.fst := by
  induction l with
  | nil => simp
  | cons e es ih =>
    obtain ⟨k', v⟩ := e
    by_cases h : k = k'
    · subst h
      constructor
      · intro h'
        simp only [List.lookup, beq_self_eq_true] at h'
        cases h'
      · intro h'
        exact absurd (List.mem_cons_self _ _) h'
    · have hb : (k == k') = false := by simpa using h
      have hl : List.lookup k ((k', v) :: es) = List.lookup k es := by
        simp only [List.lookup, hb]
      rw [hl, ih]
      simp only [List.map_cons, List.mem_cons, not_or]
      exact ⟨fun h' => ⟨h, h'⟩, fun h' => h'.2⟩

theorem mem_of_lookup_eq_some {β : Type} (k : Str) (v : β) (l : List (Str × β))
    (h : l.lookup k = some v) : (k, v) ∈ l := by
  induction l with
  | nil => simp at h
  | cons e es ih =>
    obtain ⟨k', v'⟩ := e
    by_cases hk : k = k'
    · subst hk
      simp [List.lookup] at h
      simp [h]
    · have hb : (k == k') = false := by simpa using hk
      simp only [List.lookup, hb] at h
      exact List.mem_cons_of_mem _ (ih h)

theorem lookup_eq_some_of_mem {β : Type} (k : Str) (v : β) (l : List (Str × β))
    (hnd : (l.map Prod.fst).Nodup) (h : (k, v) ∈ l) : l.lookup k = some v := by
  induction l with
  | nil => simp at h
  | cons e es ih =>
    obtain ⟨k', v'⟩ := e
    simp only [List.map_cons, List.nodup_cons] at hnd
    rcases List.mem_cons.1 h with h1 | h1
    · cases h1
      simp [List.lookup]
    · have hk : k ≠ k' := by
        intro hk
        subst hk
        exact hnd.1 (List.mem_map.2 ⟨(k, v), h1, rfl⟩)
      have hb : (k == k') = false := by simpa using hk
      simp only [List.lookup, hb]
      exact ih hnd.2 h1

theorem setProp_of_not_mem {β : Type} (k : Str) (v : β) (l : List (Str × β))
    (h : k ∉ l.map Prod.fst) : setProp k v l = l ++ [(k, v)] := by
  induction l with
  | nil => rfl
  | cons e es ih =>
    obtain ⟨k', v'⟩ := e
    simp only [List.map_cons, List.mem_cons, not_or] at h
    have hk : ¬ k' = k := fun h' => h.1 h'.symm
    simp only [setProp, hk, if_false, List.cons_append, ih h.2]

theorem map_fst_setProp_of_mem {β : Type} (k : Str) (v : β) (l : List (Str × β))
    (h : k ∈ l.map Prod.fst) : (setProp k v l).map Prod.fst = l.map Prod.fst := by
  induction l with
  | nil => simp at h
  | cons e es ih =>
    obtain ⟨k', v'⟩ := e
    by_cases hk : k' = k
    · subst hk
      simp [setProp]
    · have h' : k ∈ es.map Prod.fst := by
        simp only [List.map_cons, List.mem_cons] at h
        rcases h with h | h
        · exact absurd h.symm hk
        · exact h
      simp only [setProp, hk, if_false, List.map_cons, ih h']

theorem mem_setProp_of_mem {β : Type} (k : Str) (v : β) (l : List (Str × β))
    (hnd : (l.map Prod.fst).Nodup) (h : k ∈ l.map Prod.fst) (e : Str × β) :
    e ∈ setProp k v l ↔ e = (k, v) ∨ (e.1 ≠ k ∧ e ∈ l) := by
  induction l with
  | nil => simp at h
  | cons x xs ih =>
    obtain ⟨k', v'⟩ := x
    simp only [List.map_cons, List.nodup_cons] at hnd
    by_cases hk : k' = k
    · subst hk
      simp only [setProp, if_true, List.mem_cons]
      constructor
      · rintro (h1 | h1)
        · exact Or.inl h1
        · refine Or.inr ⟨?_, Or.inr h1⟩
          intro he
          exact hnd.1 (List.mem_map.2 ⟨e, h1, he⟩)
      · rintro (h1 | ⟨h1, h2 | h2⟩)
        · exact Or.inl h1
        · exact absurd (by rw [h2]) h1
        · exact Or.inr h2
    · have h' : k ∈ xs.map Prod.fst := by
        simp only [List.map_cons, List.mem_cons] at h
        rcases h with h | h
        · exact absurd h.symm hk
        · exact h
      simp only [setProp, hk, if_false, List.mem_cons, ih hnd.2 h']
      constructor
      · rintro (h1 | h1 | ⟨h1, h2⟩)
        · exact Or.inr ⟨by rw [h1]; exact hk, Or.inl h1⟩
        · exact Or.inl h1
        · exact Or.inr ⟨h1, Or.inr h2⟩
      · rintro (h1 | ⟨h1, h2 | h2⟩)
        · exact Or.inr (Or.inl h1)
        · exact Or.inl h2
        · exact Or.inr (Or.inr ⟨h1, h2⟩)

theorem map_fst_modifyGroup (k : Str) (f : Group → Group) (l : List (Str × Group)) :
    (modifyGroup k f l).map Prod.fst = l.map Prod.fst := by
  induction l with
  | nil => rfl
  | cons e es ih =>
    obtain ⟨k', g⟩ := e
    by_cases hk : k' = k
    · simp [modifyGroup, hk]
    · simp [modifyGroup, hk, ih]

theorem mem_modifyGroup (k : Str) (f : Group → Group) (l : List (Str × Group))
    (e : Str × Group) (h : e ∈ modifyGroup k f l) :
    ∃ g, (e.1, g) ∈ l ∧ (e.2 = g ∨ (e.1 = k ∧ e.2 = f g)) := by
  induction l with
  | nil => simp [modifyGroup] at h
  | cons x xs ih =>
    obtain ⟨k', g⟩ := x
    by_cases hk : k' = k
    · simp only [modifyGroup, hk, if_true, List.mem_cons] at h
      rcases h with h | h
      · subst h
        exact ⟨g, by simp [hk], Or.inr ⟨rfl, rfl⟩⟩
      · exact ⟨e.2, List.mem_cons_of_mem _ h, Or.inl rfl⟩
    · simp only [modifyGroup, hk, if_false, List.mem_cons] at h
      rcases h with h | h
      · subst h
        exact ⟨g, by simp, Or.inl rfl⟩
      · obtain ⟨g', hg', hor⟩ := ih h
        exact ⟨g', List.mem_cons_of_mem _ hg', hor⟩

theorem modifyGroup_id (k : Str) (l : List (Str × Group)) :
    modifyGroup k (fun g => g) l = l := by
  induction l with
  | nil => rfl
  | cons e es ih =>
    obtain ⟨k', g⟩ := e
    by_cases hk : k' = k
    · simp [modifyGroup, hk]
    · simp [modifyGroup, hk, ih]

/-! ### The loop of `transformRecordsToDistricts` -/

theorem transformStep_of_recordKey_none (map : List (Str × Group)) (r : RawRecord)
    (h : recordKey r = none) : transformStep map r = map := by
  unfold recordKey at h
  unfold transformStep
  simp only at h ⊢
  split at h
  · rename_i hc
    rw [if_pos hc]
  · cases h

theorem transformStep_of_recordKey_some (map : List (Str × Group)) (r : RawRecord) (k : Str)
    (h : recordKey r = some k) :
    k = groupKey (r.state_name.orElse "Unknown".toList) (r.district_name.orElse "Unknown".toList) ∧
    transformStep map r =
      modifyGroup k (fun g => { g with seriesMap := recordSeriesStep g.seriesMap r })
        (if k ∈ map.map Prod.fst then map
         else map ++ [(k,
          { state := r.state_name.orElse "Unknown".toList,
            district := r.district_name.orElse "Unknown".toList,
            slug := slugOf (r.state_name.orElse "Unknown".toList)
              (r.district_name.orElse "Unknown".toList),
            bbox := generateBbox (r.state_name.orElse "Unknown".toList)
              (r.district_name.orElse "Unknown".toList),
            seriesMap := [] })]) := by
  unfold recordKey at h
  simp only at h
  split at h
  · cases h
  · rename_i hc
    have hk : groupKey (r.state_name.orElse "Unknown".toList)
        (r.district_name.orElse "Unknown".toList) = k := by simpa using h
    refine ⟨hk.symm, ?_⟩
    unfold transformStep
    simp only [if_neg hc, hk]
    have hmap1 : (if (List.lookup k map).isNone = true then
          setProp k
            { state := r.state_name.orElse "Unknown".toList,
              district := r.district_name.orElse "Unknown".toList,
              slug := slugOf (r.state_name.orElse "Unknown".toList)
                (r.district_name.orElse "Unknown".toList),
              bbox := generateBbox (r.state_name.orElse "Unknown".toList)
                (r.district_name.orElse "Unknown".toList),
              seriesMap := [] } map
        else map) =
        (if k ∈ map.map Prod.fst then map
         else map ++ [(k,
          { state := r.state_name.orElse "Unknown".toList,
            district := r.district_name.orElse "Unknown".toList,
            slug := slugOf (r.state_name.orElse "Unknown".toList)
              (r.district_name.orElse "Unknown".toList),
            bbox := generateBbox (r.state_name.orElse "Unknown".toList)
              (r.district_name.orElse "Unknown".toList),
            seriesMap := [] })]) := by
      by_cases hmem : k ∈ map.map Prod.fst
      · have : ¬ (List.lookup k map).isNone = true := by
          rw [Option.isNone_iff_eq_none, lookup_eq_none_iff]
          exact fun h' => h' hmem
        rw [if_neg this, if_pos hmem]
      · have : (List.lookup k map).isNone = true := by
          rw [Option.isNone_iff_eq_none, lookup_eq_none_iff]
          exact hmem
        rw [if_pos this, if_neg hmem, setProp_of_not_mem k _ map hmem]
    rw [hmap1]
    unfold recordSeriesStep
    cases hm : extractMetric r with
    | none =>
      simp only
      exact (modifyGroup_id k _).symm
    | some metric =>
      simp only
      by_cases hpos : 0 < metric
      · simp only [if_pos hpos]
      · simp only [if_neg hpos]
        exact (modifyGroup_id k _).symm

theorem transform_eq_map (rs : List RawRecord) :
    transformRecordsToDistricts rs =
      (rs.foldl transformStep []).map (fun e => toDistrict e.2) := by
  unfold transformRecordsToDistricts
  cases rs with
  | nil => rfl
  | cons r rest => simp [List.map_map, Function.comp_def]

theorem transformStep_wellKeyed (map : List (Str × Group)) (r : RawRecord)
    (h : WellKeyed map) : WellKeyed (transformStep map r) := by
  cases hk : recordKey r with
  | none => rw [transformStep_of_recordKey_none map r hk]; exact h
  | some k =>
    obtain ⟨hkey, hstep⟩ := transformStep_of_recordKey_some map r k hk
    rw [hstep]
    intro e he
    obtain ⟨g, hg, hor⟩ := mem_modifyGroup _ _ _ e he
    have hbase : (e.1, g).1 = groupKey (e.1, g).2.state (e.1, g).2.district ∧
        (e.1, g).2.slug = slugOf (e.1, g).2.state (e.1, g).2.district ∧
        (e.1, g).2.bbox = generateBbox (e.1, g).2.state (e.1, g).2.district := by
      by_cases hmem : k ∈ map.map Prod.fst
      · rw [if_pos hmem] at hg
        exact h _ hg
      · rw [if_neg hmem] at hg
        rcases List.mem_append.1 hg with hg | hg
        · exact h _ hg
        · simp only [List.mem_singleton, Prod.mk.injEq] at hg
          obtain ⟨h1, h2⟩ := hg
          subst h2
          exact ⟨by rw [h1, hkey], rfl, rfl⟩
    rcases hor with hor | ⟨_, hor⟩
    · rw [hor]; exact hbase
    · rw [hor]; exact hbase

theorem foldl_transformStep_wellKeyed (rs : List RawRecord) (map : List (Str × Group))
    (h : WellKeyed map) : WellKeyed (rs.foldl transformStep map) := by
  induction rs generalizing map with
  | nil => exact h
  | cons r rest ih => exact ih _ (transformStep_wellKeyed map r h)

theorem transformStep_keys (map : List (Str × Group)) (r : RawRecord) :
    (transformStep map r).map Prod.fst =
      match recordKey r with
      | none => map.map Prod.fst
      | some k => if k ∈ map.map Prod.fst then map.map Prod.fst else map.map Prod.fst ++ [k] := by
  cases hk : recordKey r with
  | none => rw [transformStep_of_recordKey_none map r hk]
  | some k =>
    obtain ⟨_, hstep⟩ := transformStep_of_recordKey_some map r k hk
    rw [hstep, map_fst_modifyGroup]
    by_cases hmem : k ∈ map.map Prod.fst
    · simp only [if_pos hmem]
    · simp only [if_neg hmem, List.map_append, List.map_cons, List.map_nil]

theorem foldl_transformStep_keys_nodup (rs : List RawRecord) (map : List (Str × Group))
    (h : (map.map Prod.fst).Nodup) : ((rs.foldl transformStep map).map Prod.fst).Nodup := by
  induction rs generalizing map with
  | nil => exact h
  | cons r rest ih =>
    apply ih
    rw [transformStep_keys]
    cases recordKey r with
    | none => exact h
    | some k =>
      simp only
      by_cases hmem : k ∈ map.map Prod.fst
      · rw [if_pos hmem]; exact h
      · rw [if_neg hmem]
        exact List.Nodup.append h (List.nodup_singleton k)
          (by
            intro x hx hx'
            rw [List.mem_singleton] at hx'
            exact hmem (hx' ▸ hx))

theorem foldl_transformStep_mem_keys (rs : List RawRecord) (map : List (Str × Group))
    (k : Str) :
    k ∈ (rs.foldl transformStep map).map Prod.fst ↔
      k ∈ map.map Prod.fst ∨ ∃ r ∈ rs, recordKey r = some k := by
  induction rs generalizing map with
  | nil =>
    constructor
    · exact Or.inl
    · rintro (h | ⟨r, hr, _⟩)
      · exact h
      · cases hr
  | cons r rest ih =>
    rw [List.foldl_cons, ih, transformStep_keys]
    constructor
    · rintro (h | ⟨r', hr', hk'⟩)
      · cases hk : recordKey r with
        | none => rw [hk] at h; exact Or.inl h
        | some k' =>
          rw [hk] at h
          simp only at h
          by_cases hmem : k' ∈ map.map Prod.fst
          · rw [if_pos hmem] at h; exact Or.inl h
          · rw [if_neg hmem] at h
            rcases List.mem_append.1 h with h | h
            · exact Or.inl h
            · rw [List.mem_singleton] at h
              exact Or.inr ⟨r, List.mem_cons_self _ _, by rw [hk, h]⟩
      · exact Or.inr ⟨r', List.mem_cons_of_mem _ hr', hk'⟩
    · rintro (h | ⟨r', hr', hk'⟩)
      · left
        cases recordKey r with
        | none => exact h
        | some k' =>
          simp only
          by_cases hmem : k' ∈ map.map Prod.fst
          · rw [if_pos hmem]; exact h
          · rw [if_neg hmem]; exact List.mem_append_left _ h
      · rcases List.mem_cons.1 hr' with h1 | h1
        · subst h1
          left
          rw [hk']
          simp only
          by_cases hmem : k ∈ map.map Prod.fst
          · rw [if_pos hmem]; exact hmem
          · rw [if_neg hmem]; exact List.mem_append_right _ (List.mem_singleton_self k)
        · exact Or.inr ⟨r', h1, hk'⟩

theorem recordSeriesStep_of_not_positive (sm : List (Str × ℚ)) (r : RawRecord)
    (h : isPositive (extractMetric r) = false) : recordSeriesStep sm r = sm := by
  unfold recordSeriesStep
  cases hm : extractMetric r with
  | none => rfl
  | some q =>
    rw [hm] at h
    have hq : ¬ 0 < q := by simpa [isPositive] using h
    simp only [if_neg hq]

theorem transformStep_seriesMap_nonempty (map : List (Str × Group)) (r : RawRecord)
    (e : Str × Group) (he : e ∈ transformStep map r) (hne : e.2.seriesMap ≠ []) :
    (∃ g0, (e.1, g0) ∈ map ∧ g0.seriesMap ≠ []) ∨
      (recordKey r = some e.1 ∧ isPositive (extractMetric r) = true) := by
  cases hk : recordKey r with
  | none =>
    rw [transformStep_of_recordKey_none map r hk] at he
    exact Or.inl ⟨e.2, he, hne⟩
  | some k =>
    obtain ⟨_, hstep⟩ := transformStep_of_recordKey_some map r k hk
    rw [hstep] at he
    obtain ⟨g, hg, hor⟩ := mem_modifyGroup _ _ _ e he
    have hold : g.seriesMap ≠ [] → ∃ g0, (e.1, g0) ∈ map ∧ g0.seriesMap ≠ [] := by
      intro hgne
      by_cases hmem : k ∈ map.map Prod.fst
      · rw [if_pos hmem] at hg
        exact ⟨g, hg, hgne⟩
      · rw [if_neg hmem] at hg
        rcases List.mem_append.1 hg with hg | hg
        · exact ⟨g, hg, hgne⟩
        · simp only [List.mem_singleton, Prod.mk.injEq] at hg
          obtain ⟨_, h2⟩ := hg
          subst h2
          exact absurd rfl hgne
    rcases hor with hor | ⟨hek, hor⟩
    · rw [hor] at hne
      exact Or.inl (hold hne)
    · by_cases hpos : isPositive (extractMetric r) = true
      · exact Or.inr ⟨by rw [hek], hpos⟩
      · have hpos' : isPositive (extractMetric r) = false := by simpa using hpos
        rw [hor] at hne
        simp only [recordSeriesStep_of_not_positive _ r hpos'] at hne
        exact Or.inl (hold hne)

theorem foldl_transformStep_seriesMap_nonempty (rs : List RawRecord)
    (map : List (Str × Group)) (e : Str × Group) (he : e ∈ rs.foldl transformStep map)
    (hne : e.2.seriesMap ≠ []) :
    (∃ g0, (e.1, g0) ∈ map ∧ g0.seriesMap ≠ []) ∨
      ∃ r ∈ rs, recordKey r = some e.1 ∧ isPositive (extractMetric r) = true := by
  induction rs generalizing map with
  | nil => exact Or.inl ⟨e.2, he, hne⟩
  | cons r rest ih =>
    rcases ih (transformStep map r) he with ⟨g0, hg0, hg0ne⟩ | ⟨r', hr', h'⟩
    · rcases transformStep_seriesMap_nonempty map r (e.1, g0) hg0 hg0ne with h1 | h1
      · exact Or.inl h1
      · exact Or.inr ⟨r, List.mem_cons_self _ _, h1⟩
    · exact Or.inr ⟨r', List.mem_cons_of_mem _ hr', h'⟩

theorem wellKeyed_nil : WellKeyed [] := by
  intro e he
  cases he

theorem transform_map_key (rs : List RawRecord) :
    (transformRecordsToDistricts rs).map District.key =
      (rs.foldl transformStep []).map Prod.fst := by
  rw [transform_eq_map, List.map_map]
  apply List.map_congr_left
  intro e he
  have := (foldl_transformStep_wellKeyed rs [] wellKeyed_nil e he).1
  simp only [Function.comp_apply, District.key, toDistrict]
  exact this.symm

/-! ### Groups and entities (C4) -/

/-- C4, as amended: `transformRecordsToDistricts` returns exactly one entity per
distinct grouping key `state||district` carried by at least one record whose
names pass line 80, whether or not any record of the group has a positive
metric; the entity of a group whose records all yield a non-positive metric
has an empty series. -/
theorem one_entity_per_group (rs : List RawRecord) :
    ((transformRecordsToDistricts rs).map District.key).Nodup ∧
    (∀ k, k ∈ (transformRecordsToDistricts rs).map District.key ↔
      ∃ r ∈ rs, recordKey r = some k) ∧
    (∀ D ∈ transformRecordsToDistricts rs,
      (∀ r ∈ rs, recordKey r = some D.key → isPositive (extractMetric r) = false) →
        D.series = []) := by
  refine ⟨?_, ?_, ?_⟩
  · rw [transform_map_key]
    exact foldl_transformStep_keys_nodup rs [] List.nodup_nil
  · intro k
    rw [transform_map_key, foldl_transformStep_mem_keys]
    constructor
    · rintro (h | h)
      · cases h
      · exact h
    · exact Or.inr
  · intro D hD hall
    rw [transform_eq_map] at hD
    obtain ⟨e, he, rfl⟩ := List.mem_map.1 hD
    have hkey : (toDistrict e.2).key = e.1 :=
      ((foldl_transformStep_wellKeyed rs [] wellKeyed_nil e he).1).symm
    by_cases hne : e.2.seriesMap = []
    · simp only [toDistrict, hne]
      rfl
    · rcases foldl_transformStep_seriesMap_nonempty rs [] e he hne with ⟨g0, hg0, _⟩ | ⟨r, hr, hk, hp⟩
      · cases hg0
      · rw [← hkey] at hk
        rw [hall r hr hk] at hp
        cases hp

/-- C4, counterexample: a single record with names and no metric gives one
entity, with an empty series. -/
theorem zero_metric_group_is_returned :
    extractMetric (lucknowRecord .undefined .undefined .undefined) = some 0 ∧
    transformRecordsToDistricts [lucknowRecord .undefined .undefined .undefined] =
      [⟨"Uttar Pradesh".toList, "Lucknow".toList, "uttar-pradesh-lucknow".toList, [], []⟩] := by
  decide

/-- C3, as amended: the slug of every entity returned by
`transformRecordsToDistricts` is the slug of any pair of names that differ
from the entity's state and district only in letter case and in the length of
whitespace runs. -/
theorem slug_invariant (rs : List RawRecord) (D : District)
    (hD : D ∈ transformRecordsToDistricts rs) (state district : Str)
    (hs : SameUpToCaseAndRuns D.state state) (hd : SameUpToCaseAndRuns D.district district) :
    D.slug = slugOf state district := by
  rw [transform_eq_map] at hD
  obtain ⟨e, he, rfl⟩ := List.mem_map.1 hD
  have hslug := (foldl_transformStep_wellKeyed rs [] wellKeyed_nil e he).2.1
  simp only [toDistrict] at hs hd ⊢
  rw [hslug]
  exact slugOf_congr _ _ _ _ hs hd

/-- C3, counterexample: no whitespace is trimmed, so `'UTTAR PRADESH'` with
`'  Lucknow '` gives `uttar-pradesh--lucknow-` and not `uttar-pradesh-lucknow`,
the slug of `'Uttar Pradesh'` with `'Lucknow'`. -/
theorem slug_keeps_outer_whitespace :
    slugOf "Uttar Pradesh".toList "Lucknow".toList = "uttar-pradesh-lucknow".toList ∧
    slugOf "UTTAR PRADESH".toList "  Lucknow ".toList = "uttar-pradesh--lucknow-".toList ∧
    (transformRecordsToDistricts
        [{ state_name := .str "UTTAR PRADESH".toList,
           district_name := .str "  Lucknow ".toList }]).map (fun D => D.slug) =
      ["uttar-pradesh--lucknow-".toList] := by
  decide

theorem sameUpTo_uttar_pradesh :
    SameUpToCaseAndRuns "Uttar Pradesh".toList "UTTAR  PRADESH".toList := by
  repeat (first
    | exact SameUpToCaseAndRuns.nil
    | refine SameUpToCaseAndRuns.letter _ _ _ _ (by decide) (by decide) (by decide) ?_
    | refine SameUpToCaseAndRuns.repeatRight _ _ _ _ (by decide) (by decide) ?_
    | refine SameUpToCaseAndRuns.space _ _ _ _ (by decide) (by decide) ?_)

theorem sameUpTo_lucknow : SameUpToCaseAndRuns "Lucknow".toList "LUCKNOW".toList := by
  repeat (first
    | exact SameUpToCaseAndRuns.nil
    | refine SameUpToCaseAndRuns.letter _ _ _ _ (by decide) (by decide) (by decide) ?_)

/-- Witness of `slug_invariant`: the entity of `'Uttar Pradesh'`, `'Lucknow'` has
the slug of `'UTTAR  PRADESH'` (two spaces), `'LUCKNOW'`. -/
theorem slug_invariant_witness :
    (⟨"Uttar Pradesh".toList, "Lucknow".toList, "uttar-pradesh-lucknow".toList, [], []⟩ :
        District) ∈
      transformRecordsToDistricts [lucknowRecord .undefined .undefined .undefined] ∧
    SameUpToCaseAndRuns "Uttar Pradesh".toList "UTTAR  PRADESH".toList ∧
    SameUpToCaseAndRuns "Lucknow".toList "LUCKNOW".toList ∧
    "uttar-pradesh-lucknow".toList = slugOf "UTTAR  PRADESH".toList "LUCKNOW".toList :=
  ⟨by decide, sameUpTo_uttar_pradesh, sameUpTo_lucknow,
    slug_invariant [lucknowRecord .undefined .undefined .undefined]
      ⟨"Uttar Pradesh".toList, "Lucknow".toList, "uttar-pradesh-lucknow".toList, [], []⟩
      (by decide) "UTTAR  PRADESH".toList "LUCKNOW".toList
      sameUpTo_uttar_pradesh sameUpTo_lucknow⟩

/-! ### The series of one district (C1) -/

theorem seriesMapInv_mono (sm : List (Str × ℚ)) (seen : List RawRecord) (r : RawRecord)
    (h : SeriesMapInv sm seen)
    (hr : ∀ q, extractMetric r = some q → 0 < q → monthKey r ∉ objectPrototypeKeys →
      ∃ v, (monthKey r, v) ∈ sm ∧ q ≤ v) :
    SeriesMapInv sm (seen ++ [r]) := by
  obtain ⟨h1, h2, h3⟩ := h
  refine ⟨h1, ?_, ?_⟩
  · intro e he
    obtain ⟨hpos, r', hr', hm⟩ := h2 e he
    exact ⟨hpos, r', List.mem_append_left _ hr', hm⟩
  · intro r' hr' q hq hpos hproto
    rcases List.mem_append.1 hr' with hr' | hr'
    · exact h3 r' hr' q hq hpos hproto
    · rw [List.mem_singleton] at hr'
      subst hr'
      exact hr q hq hpos hproto

theorem seriesMapInv_step (sm : List (Str × ℚ)) (seen : List RawRecord) (r : RawRecord)
    (h : SeriesMapInv sm seen) : SeriesMapInv (recordSeriesStep sm r) (seen ++ [r]) := by
  unfold recordSeriesStep
  cases hm : extractMetric r with
  | none =>
    simp only
    apply seriesMapInv_mono sm seen r h
    intro q hq
    rw [hm] at hq
    cases hq
  | some metric =>
    simp only
    by_cases hpos : 0 < metric
    · rw [if_pos hpos]
      obtain ⟨h1, h2, h3⟩ := h
      unfold updateSeriesMap
      cases hl : sm.lookup (monthKey r) with
      | some v =>
        simp only
        have hmem : (monthKey r, v) ∈ sm := mem_of_lookup_eq_some _ _ _ hl
        have hkey : monthKey r ∈ sm.map Prod.fst := List.mem_map.2 ⟨_, hmem, rfl⟩
        have hv : 0 < v := (h2 _ hmem).1
        by_cases hlt : v = 0 ∨ v < metric
        · rw [if_pos hlt]
          have hlt' : v < metric := by
            rcases hlt with h0 | hlt
            · rw [h0] at hv; exact absurd hv (lt_irrefl 0)
            · exact hlt
          refine ⟨?_, ?_, ?_⟩
          · rw [map_fst_setProp_of_mem _ _ _ hkey]; exact h1
          · intro e he
            rcases (mem_setProp_of_mem _ _ _ h1 hkey e).1 he with he | ⟨_, he⟩
            · subst he
              exact ⟨hpos, r, List.mem_append_right _ (List.mem_singleton_self r), rfl, hm⟩
            · obtain ⟨hp, r', hr', hm'⟩ := h2 e he
              exact ⟨hp, r', List.mem_append_left _ hr', hm'⟩
          · intro r' hr' q hq hqpos hproto
            rcases List.mem_append.1 hr' with hr' | hr'
            · obtain ⟨v', hv', hle⟩ := h3 r' hr' q hq hqpos hproto
              by_cases hsame : monthKey r' = monthKey r
              · refine ⟨metric, ?_, ?_⟩
                · rw [hsame]
                  exact (mem_setProp_of_mem _ _ _ h1 hkey _).2 (Or.inl rfl)
                · rw [hsame] at hv'
                  have hv'' := lookup_eq_some_of_mem _ _ _ h1 hv'
                  rw [hl] at hv''
                  have : v = v' := by simpa using hv''
                  rw [← this] at hle
                  exact le_of_lt (lt_of_le_of_lt hle hlt')
              · exact ⟨v', (mem_setProp_of_mem _ _ _ h1 hkey _).2 (Or.inr ⟨hsame, hv'⟩), hle⟩
            · rw [List.mem_singleton] at hr'
              subst hr'
              rw [hm] at hq
              have : metric = q := by simpa using hq
              subst this
              exact ⟨metric, (mem_setProp_of_mem _ _ _ h1 hkey _).2 (Or.inl rfl), le_refl _⟩
        · rw [if_neg hlt]
          apply seriesMapInv_mono sm seen r ⟨h1, h2, h3⟩
          intro q hq _ _
          rw [hm] at hq
          have : metric = q := by simpa using hq
          subst this
          refine ⟨v, hmem, ?_⟩
          simp only [not_or, not_lt] at hlt
          exact hlt.2
      | none =>
        simp only
        have hkey : monthKey r ∉ sm.map Prod.fst := (lookup_eq_none_iff _ _).1 hl
        by_cases hproto : monthKey r ∈ objectPrototypeKeys
        · rw [if_pos hproto]
          apply seriesMapInv_mono sm seen r ⟨h1, h2, h3⟩
          intro q _ _ hnp
          exact absurd hproto hnp
        · rw [if_neg hproto, setProp_of_not_mem _ _ _ hkey]
          refine ⟨?_, ?_, ?_⟩
          · rw [List.map_append]
            exact List.Nodup.append h1 (List.nodup_singleton _)
              (by
                intro x hx hx'
                simp only [List.map_cons, List.map_nil, List.mem_singleton] at hx'
                exact hkey (hx' ▸ hx))
          · intro e he
            rcases List.mem_append.1 he with he | he
            · obtain ⟨hp, r', hr', hm'⟩ := h2 e he
              exact ⟨hp, r', List.mem_append_left _ hr', hm'⟩
            · rw [List.mem_singleton] at he
              subst he
              exact ⟨hpos, r, List.mem_append_right _ (List.mem_singleton_self r), rfl, hm⟩
          · intro r' hr' q hq hqpos hproto'
            rcases List.mem_append.1 hr' with hr' | hr'
            · obtain ⟨v', hv', hle⟩ := h3 r' hr' q hq hqpos hproto'
              exact ⟨v', List.mem_append_left _ hv', hle⟩
            · rw [List.mem_singleton] at hr'
              subst hr'
              rw [hm] at hq
              have : metric = q := by simpa using hq
              subst this
              exact ⟨metric, List.mem_append_right _ (List.mem_singleton_self _), le_refl _⟩
    · rw [if_neg hpos]
      apply seriesMapInv_mono sm seen r h
      intro q hq hqpos
      rw [hm] at hq
      have : metric = q := by simpa using hq
      subst this
      exact absurd hqpos hpos

theorem seriesMapInv_foldl (rs : List RawRecord) (sm : List (Str × ℚ)) (seen : List RawRecord)
    (h : SeriesMapInv sm seen) : SeriesMapInv (rs.foldl recordSeriesStep sm) (seen ++ rs) := by
  induction rs generalizing sm seen with
  | nil => simpa using h
  | cons r rest ih =>
    have := ih (recordSeriesStep sm r) (seen ++ [r]) (seriesMapInv_step sm seen r h)
    simpa using this

theorem seriesMapInv_nil : SeriesMapInv [] [] := by
  refine ⟨List.nodup_nil, ?_, ?_⟩
  · intro e he; cases he
  · intro r hr; cases hr

theorem objectEntries_perm {β : Type} (obj : List (Str × β)) :
    (objectEntries obj).Perm obj := by
  unfold objectEntries
  have hf : (fun e : Str × β => (arrayIndex e.1).isNone) =
      (fun e : Str × β => !(arrayIndex e.1).isSome) := by
    funext e
    cases arrayIndex e.1 <;> rfl
  rw [hf]
  exact ((List.perm_insertionSort _ _).append_right _).trans (List.filter_append_perm _ obj)

theorem buildSeries_perm (sm : List (Str × ℚ)) :
    (buildSeries sm).Perm (sm.map (fun e => ({ month := e.1, metric := e.2 } : SeriesEntry))) := by
  unfold buildSeries
  exact (List.perm_insertionSort _ _).trans ((objectEntries_perm sm).map _)

theorem mem_buildSeries (sm : List (Str × ℚ)) (m : Str) (q : ℚ) :
    (⟨m, q⟩ : SeriesEntry) ∈ buildSeries sm ↔ (m, q) ∈ sm := by
  rw [(buildSeries_perm sm).mem_iff, List.mem_map]
  constructor
  · rintro ⟨e, he, heq⟩
    have h1 : e.1 = m := congrArg SeriesEntry.month heq
    have h2 : e.2 = q := congrArg SeriesEntry.metric heq
    rw [← h1, ← h2]
    exact he
  · intro h
    exact ⟨(m, q), h, rfl⟩

theorem buildSeries_months_nodup (sm : List (Str × ℚ)) (h : (sm.map Prod.fst).Nodup) :
    ((buildSeries sm).map (fun e => e.month)).Nodup := by
  have hp := (buildSeries_perm sm).map (fun e : SeriesEntry => e.month)
  rw [hp.nodup_iff, List.map_map]
  exact h

theorem foldl_transformStep_single (rs : List RawRecord) (k : Str) (g : Group)
    (h : ∀ r ∈ rs, recordKey r = some k) :
    rs.foldl transformStep [(k, g)] =
      [(k, { g with seriesMap := rs.foldl recordSeriesStep g.seriesMap })] := by
  induction rs generalizing g with
  | nil => rfl
  | cons r rest ih =>
    obtain ⟨_, hstep⟩ := transformStep_of_recordKey_some [(k, g)] r k
      (h r (List.mem_cons_self _ _))
    have hmem : k ∈ List.map Prod.fst [(k, g)] := by simp
    rw [List.foldl_cons, hstep, if_pos hmem]
    simp only [modifyGroup, if_true]
    rw [ih _ (fun r' hr' => h r' (List.mem_cons_of_mem _ hr'))]
    rfl

theorem recordKey_of_names (r : RawRecord) (s d : Str) (hs : s ≠ []) (hd : d ≠ [])
    (hsU : s ≠ "Unknown".toList) (hdU : d ≠ "Unknown".toList)
    (h : r.state_name = .str s ∧ r.district_name = .str d) :
    r.state_name.orElse "Unknown".toList = s ∧ r.district_name.orElse "Unknown".toList = d ∧
    recordKey r = some (groupKey s d) := by
  have h1 : r.state_name.orElse "Unknown".toList = s := by
    rw [h.1]
    cases s with
    | nil => exact absurd rfl hs
    | cons c cs => rfl
  have h2 : r.district_name.orElse "Unknown".toList = d := by
    rw [h.2]
    cases d with
    | nil => exact absurd rfl hd
    | cons c cs => rfl
  refine ⟨h1, h2, ?_⟩
  unfold recordKey
  simp only [h1, h2]
  rw [if_neg (by
    rintro (h' | h')
    · exact hsU h'
    · exact hdU h')]

/-- C1, as amended: for a non-empty list of records that all carry the same
state and district names, both non-empty and neither the literal `Unknown`,
`transformRecordsToDistricts` returns one district whose series has unique
months and, for every month key that names no inherited property of a plain
object, holds the entry `(m, q)` exactly when `q` is positive and is the
maximum extracted metric over the records of month key `m`. -/
theorem series_is_monthly_maximum (rs : List RawRecord) (s d : Str) (hne : rs ≠ [])
    (hs : s ≠ []) (hd : d ≠ []) (hsU : s ≠ "Unknown".toList) (hdU : d ≠ "Unknown".toList)
    (hrec : ∀ r ∈ rs, r.state_name = .str s ∧ r.district_name = .str d) :
    ∃ D, transformRecordsToDistricts rs = [D] ∧ D.state = s ∧ D.district = d ∧
      D.slug = slugOf s d ∧ (D.series.map (fun e => e.month)).Nodup ∧
      ∀ m, m ∉ objectPrototypeKeys → ∀ q,
        (⟨m, q⟩ : SeriesEntry) ∈ D.series ↔
          (0 < q ∧ (∃ r ∈ rs, monthKey r = m ∧ extractMetric r = some q) ∧
            ∀ r ∈ rs, monthKey r = m → ∀ q', extractMetric r = some q' → q' ≤ q) := by
  have hkeys : ∀ r ∈ rs, recordKey r = some (groupKey s d) :=
    fun r hr => (recordKey_of_names r s d hs hd hsU hdU (hrec r hr)).2.2
  cases rs with
  | nil => exact absurd rfl hne
  | cons r0 rest =>
    obtain ⟨hs0, hd0, hk0⟩ := recordKey_of_names r0 s d hs hd hsU hdU
      (hrec r0 (List.mem_cons_self _ _))
    obtain ⟨_, hstep⟩ := transformStep_of_recordKey_some [] r0 (groupKey s d) hk0
    have hinv : SeriesMapInv ((r0 :: rest).foldl recordSeriesStep []) (r0 :: rest) := by
      have := seriesMapInv_foldl (r0 :: rest) [] [] seriesMapInv_nil
      simpa using this
    obtain ⟨h1, h2, h3⟩ := hinv
    have hfinal : (r0 :: rest).foldl transformStep [] =
        [(groupKey s d,
          { state := s, district := d, slug := slugOf s d, bbox := generateBbox s d,
            seriesMap := (r0 :: rest).foldl recordSeriesStep [] })] := by
      rw [List.foldl_cons, hstep]
      simp only [List.map_nil, List.not_mem_nil, if_false, List.nil_append, modifyGroup, if_true,
        hs0, hd0]
      rw [foldl_transformStep_single rest _ _
        (fun r' hr' => hkeys r' (List.mem_cons_of_mem _ hr'))]
      rfl
    refine ⟨toDistrict (Group.mk s d (slugOf s d) (generateBbox s d)
      ((r0 :: rest).foldl recordSeriesStep [])), ?_, rfl, rfl, rfl, ?_, ?_⟩
    · rw [transform_eq_map, hfinal]
      rfl
    · exact buildSeries_months_nodup _ h1
    · intro m hm q
      simp only [toDistrict]
      rw [mem_buildSeries]
      constructor
      · intro hmem
        obtain ⟨hpos, r, hr, hrm, hrq⟩ := h2 (m, q) hmem
        refine ⟨hpos, ⟨r, hr, hrm, hrq⟩, ?_⟩
        intro r' hr' hrm' q' hq'
        by_cases hq'pos : 0 < q'
        · obtain ⟨v, hv, hle⟩ := h3 r' hr' q' hq' hq'pos (by rw [hrm']; exact hm)
          rw [hrm'] at hv
          have e1 := lookup_eq_some_of_mem _ _ _ h1 hv
          have e2 := lookup_eq_some_of_mem _ _ _ h1 hmem
          rw [e1] at e2
          have : v = q := by simpa using e2
          rw [← this]
          exact hle
        · exact le_trans (not_lt.1 hq'pos) (le_of_lt hpos)
      · rintro ⟨hpos, ⟨r, hr, hrm, hrq⟩, hmax⟩
        obtain ⟨v, hv, hle⟩ := h3 r hr q hrq hpos (by rw [hrm]; exact hm)
        rw [hrm] at hv
        obtain ⟨_, r', hr', hrm', hrq'⟩ := h2 (m, v) hv
        have hle' : v ≤ q := hmax r' hr' hrm' v hrq'
        have : v = q := le_antisymm hle' hle
        rw [← this]
        exact hv

/-- Witness of `series_is_monthly_maximum`: the three Lucknow records give the
series `[(2023-2024-April, 5200), (2023-2024-May, 6000)]`. -/
theorem series_is_monthly_maximum_witness :
    transformRecordsToDistricts lucknowScenario =
      [⟨"Uttar Pradesh".toList, "Lucknow".toList, "uttar-pradesh-lucknow".toList, [],
        [⟨"2023-2024-April".toList, 5200⟩, ⟨"2023-2024-May".toList, 6000⟩]⟩] ∧
    lucknowScenario ≠ [] ∧ "Uttar Pradesh".toList ≠ [] ∧ "Lucknow".toList ≠ [] ∧
    "Uttar Pradesh".toList ≠ "Unknown".toList ∧ "Lucknow".toList ≠ "Unknown".toList ∧
    (∀ r ∈ lucknowScenario, r.state_name = .str "Uttar Pradesh".toList ∧
      r.district_name = .str "Lucknow".toList) ∧
    ∃ D, transformRecordsToDistricts lucknowScenario = [D] ∧
      D.state = "Uttar Pradesh".toList ∧ D.district = "Lucknow".toList ∧
      D.slug = slugOf "Uttar Pradesh".toList "Lucknow".toList ∧
      (D.series.map (fun e => e.month)).Nodup ∧
      ∀ m, m ∉ objectPrototypeKeys → ∀ q,
        (⟨m, q⟩ : SeriesEntry) ∈ D.series ↔
          (0 < q ∧ (∃ r ∈ lucknowScenario, monthKey r = m ∧ extractMetric r = some q) ∧
            ∀ r ∈ lucknowScenario, monthKey r = m → ∀ q', extractMetric r = some q' → q' ≤ q) :=
  ⟨by decide, by decide, by decide, by decide, by decide, by decide, by decide,
    series_is_monthly_maximum lucknowScenario "Uttar Pradesh".toList "Lucknow".toList
      (by decide) (by decide) (by decide) (by decide) (by decide) (by decide)⟩

/-- C1, counterexample: a record whose state name is the string `Unknown` is
skipped, so no district is returned; and a record whose month key is
`constructor` has a positive metric and yet adds no entry to the series. -/
theorem series_maximum_fails :
    extractMetric { state_name := .str "Unknown".toList, district_name := .str "Lucknow".toList,
                    month := .str "May".toList, Total_Households_Worked := .num 5 } = some 5 ∧
    transformRecordsToDistricts
      [{ state_name := .str "Unknown".toList, district_name := .str "Lucknow".toList,
         month := .str "May".toList, Total_Households_Worked := .num 5 }] = [] ∧
    monthKey (lucknowRecord .undefined (.str "constructor".toList) (.num 5)) =
      "constructor".toList ∧
    extractMetric (lucknowRecord .undefined (.str "constructor".toList) (.num 5)) = some 5 ∧
    (transformRecordsToDistricts
      [lucknowRecord .undefined (.str "constructor".toList) (.num 5)]).map
        (fun D => D.series) = [[]] := by
  decide

/-! ### Paging of `fetchFromGov` (C10) -/

theorem pageOffsets_succ (p : Nat) : pageOffsets (p + 1) = pageOffsets p ++ [limit * p] := by
  simp [pageOffsets, List.range_succ]

theorem length_pageOffsets (p : Nat) : (pageOffsets p).length = p := by
  simp [pageOffsets]

theorem matchesBefore_succ (pages : Nat → List RawRecord) (p : Nat) :
    matchesBefore pages (p + 1) =
      matchesBefore pages p ++ (pages (limit * p)).filter isUttarPradesh := by
  simp [matchesBefore, List.range_succ]

theorem fetchLoop_stop_here (pages : Nat → List RawRecord) (pagesLeft p : Nat)
    (h : stopsAt pages p) :
    (fetchLoop (fun o => Response.page (pages o)) (pagesLeft + 1) (limit * p)
      (matchesBefore pages p) (pageOffsets p)).requests = pageOffsets (p + 1) := by
  rw [pageOffsets_succ]
  simp only [fetchLoop]
  by_cases hempty : (pages (limit * p)).length = 0
  · rw [if_pos hempty]
  · rw [if_neg hempty]
    rcases h with h | h
    · exact absurd h hempty
    · rw [matchesBefore_succ] at h
      simp only [if_pos h]

theorem fetchLoop_continue (pages : Nat → List RawRecord) (pagesLeft p : Nat)
    (h : ¬ stopsAt pages p) :
    fetchLoop (fun o => Response.page (pages o)) (pagesLeft + 1) (limit * p)
      (matchesBefore pages p) (pageOffsets p) =
    fetchLoop (fun o => Response.page (pages o)) pagesLeft (limit * (p + 1))
      (matchesBefore pages (p + 1)) (pageOffsets (p + 1)) := by
  have hempty : ¬ (pages (limit * p)).length = 0 := fun h' => h (Or.inl h')
  have hthr : ¬ (300 ≤ (matchesBefore pages (p + 1)).length ∧
      200 ≤ uniqueCombos (matchesBefore pages (p + 1))) := fun h' => h (Or.inr h')
  rw [matchesBefore_succ] at hthr
  rw [pageOffsets_succ, matchesBefore_succ]
  simp only [fetchLoop, if_neg hempty]
  simp only [if_neg hthr]
  rfl

theorem fetchLoop_requests (pages : Nat → List RawRecord) (pagesLeft p : Nat) :
    (∀ k, p ≤ k → k < p + pagesLeft → stopsAt pages k →
      (∀ j, p ≤ j → j < k → ¬ stopsAt pages j) →
      (fetchLoop (fun o => Response.page (pages o)) pagesLeft (limit * p)
        (matchesBefore pages p) (pageOffsets p)).requests = pageOffsets (k + 1)) ∧
    ((∀ j, p ≤ j → j < p + pagesLeft → ¬ stopsAt pages j) →
      (fetchLoop (fun o => Response.page (pages o)) pagesLeft (limit * p)
        (matchesBefore pages p) (pageOffsets p)).requests = pageOffsets (p + pagesLeft)) := by
  induction pagesLeft generalizing p with
  | zero =>
    refine ⟨?_, ?_⟩
    · intro k h1 h2
      omega
    · intro _
      rfl
  | succ n ih =>
    obtain ⟨ih1, ih2⟩ := ih (p + 1)
    refine ⟨?_, ?_⟩
    · intro k h1 h2 hstop hbefore
      by_cases hkp : k = p
      · subst hkp
        exact fetchLoop_stop_here pages n k hstop
      · have hp : ¬ stopsAt pages p := hbefore p (le_refl p) (by omega)
        rw [fetchLoop_continue pages n p hp]
        exact ih1 k (by omega) (by omega) hstop (fun j hj1 hj2 => hbefore j (by omega) hj2)
    · intro hno
      have hp : ¬ stopsAt pages p := hno p (le_refl p) (by omega)
      rw [fetchLoop_continue pages n p hp]
      have := ih2 (fun j hj1 hj2 => hno j (by omega) (by omega))
      rw [this]
      congr 1
      omega

/-- The paging of `fetchFromGov` as the code counts: against a source that
answers every request, the requests are made at the offsets `0, 10, 20, ...`
and there are exactly `k + 1` of them, `k` being the least page index below
1500 at which the page is empty or, with its matching records added, there are
at least 300 matches and at least 200 distinct combination strings
`district_name-fin_year-month`; when there is no such index there are exactly
1500 requests. -/
theorem fetch_request_count (pages : Nat → List RawRecord) :
    (∀ k, k < 1500 → stopsAt pages k → (∀ j, j < k → ¬ stopsAt pages j) →
      (fetchFromGov (fun o => Response.page (pages o))).requests = pageOffsets (k + 1) ∧
      (fetchFromGov (fun o => Response.page (pages o))).requests.length = k + 1) ∧
    ((∀ k, k < 1500 → ¬ stopsAt pages k) →
      (fetchFromGov (fun o => Response.page (pages o))).requests = pageOffsets 1500 ∧
      (fetchFromGov (fun o => Response.page (pages o))).requests.length = 1500) := by
  obtain ⟨h1, h2⟩ := fetchLoop_requests pages maxPages 0
  refine ⟨?_, ?_⟩
  · intro k hk hstop hbefore
    have := h1 k (Nat.zero_le k) (by simpa [maxPages] using hk) hstop
      (fun j _ hj => hbefore j hj)
    have hreq : (fetchFromGov (fun o => Response.page (pages o))).requests =
        pageOffsets (k + 1) := this
    exact ⟨hreq, by rw [hreq, length_pageOffsets]⟩
  · intro hno
    have := h2 (fun j _ hj => hno j (by simpa [maxPages] using hj))
    have hreq : (fetchFromGov (fun o => Response.page (pages o))).requests =
        pageOffsets 1500 := by simpa [maxPages] using this
    exact ⟨hreq, by rw [hreq, length_pageOffsets]⟩

/-- An instance of `fetch_request_count`: a source with one record on the first
page and an empty second page stops at page index 1, after the requests at
offsets 0 and 10. -/
theorem fetch_request_count_witness :
    stopsAt onePageSource 1 ∧ (∀ j, j < 1 → ¬ stopsAt onePageSource j) ∧
    (fetchFromGov (fun o => Response.page (onePageSource o))).requests = [0, 10] ∧
    (fetchFromGov (fun o => Response.page (onePageSource o))).requests.length = 2 :=
  ⟨by decide, by decide,
    (fetch_request_count onePageSource).1 1 (by decide) (by decide) (by decide)⟩

theorem isUttarPradesh_upRecord (d f m : Str) : isUttarPradesh (upRecord d f m) = true := rfl

theorem mem_collidingPage (r : RawRecord) (h : r ∈ collidingPage) :
    (∃ i, i < 198 ∧ r = upRecord (List.replicate (i + 1) 'x') "2023".toList "May".toList) ∨
    r = upRecord "a-b".toList "c".toList "May".toList ∨
    r = upRecord "a".toList "b-c".toList "May".toList := by
  unfold collidingPage at h
  rcases List.mem_append.1 h with h | h
  · rcases List.mem_append.1 h with h | h
    · obtain ⟨i, hi, rfl⟩ := List.mem_map.1 h
      exact Or.inl ⟨i, List.mem_range.1 hi, rfl⟩
    · rcases List.mem_cons.1 h with h | h
      · exact Or.inr (Or.inl h)
      · rw [List.mem_singleton] at h
        exact Or.inr (Or.inr h)
  · have := List.eq_of_mem_replicate h
    exact Or.inl ⟨0, by omega, this⟩

theorem length_collidingPage : collidingPage.length = 300 := by
  simp [collidingPage]

theorem matchesBefore_collidingPages : matchesBefore collidingPages 1 = collidingPage := by
  have hall : ∀ r ∈ collidingPage, isUttarPradesh r = true := by
    intro r hr
    rcases mem_collidingPage r hr with ⟨i, _, rfl⟩ | rfl | rfl <;>
      exact isUttarPradesh_upRecord _ _ _
  have h0 : collidingPages (limit * 0) = collidingPage := by
    simp [collidingPages]
  have hnil : matchesBefore collidingPages 0 = [] := rfl
  rw [matchesBefore_succ collidingPages 0, hnil, h0, List.filter_eq_self.2 hall, List.nil_append]

theorem uniqueCombos_collidingPage : uniqueCombos collidingPage ≤ 199 := by
  unfold uniqueCombos
  have hsub : (collidingPage.map comboKey).dedup ⊆
      "a-b-c-May".toList ::
        (List.range 198).map (fun i => comboKey
          (upRecord (List.replicate (i + 1) 'x') "2023".toList "May".toList)) := by
    intro k hk
    rw [List.mem_dedup] at hk
    obtain ⟨r, hr, rfl⟩ := List.mem_map.1 hk
    rcases mem_collidingPage r hr with ⟨i, hi, rfl⟩ | rfl | rfl
    · exact List.mem_cons_of_mem _ (List.mem_map.2 ⟨i, List.mem_range.2 hi, rfl⟩)
    · exact List.mem_cons.2 (Or.inl (by decide))
    · exact List.mem_cons.2 (Or.inl (by decide))
  have := ((List.nodup_dedup _).subperm hsub).length_le
  simpa using this

theorem distinctTriples_collidingPage : 200 ≤ distinctTriples collidingPage := by
  unfold distinctTriples
  let g : Nat → JsText × JsText × JsText := fun i =>
    (.str (List.replicate (i + 1) 'x'), .str "2023".toList, .str "May".toList)
  let L : List (JsText × JsText × JsText) :=
    (List.range 198).map g ++
      [(.str "a-b".toList, .str "c".toList, .str "May".toList),
       (.str "a".toList, .str "b-c".toList, .str "May".toList)]
  have hg : Function.Injective g := by
    intro i j hij
    have h1 : (JsText.str (List.replicate (i + 1) 'x')) = JsText.str (List.replicate (j + 1) 'x') :=
      congrArg Prod.fst hij
    have h2 : List.replicate (i + 1) 'x' = List.replicate (j + 1) 'x' := JsText.str.inj h1
    have h3 := congrArg List.length h2
    simp only [List.length_replicate] at h3
    omega
  have hnd : L.Nodup := by
    apply List.Nodup.append ((List.nodup_range 198).map hg) (by decide)
    intro t ht1 ht2
    obtain ⟨i, _, rfl⟩ := List.mem_map.1 ht1
    rcases List.mem_cons.1 ht2 with h | h
    · have h1 : (JsText.str (List.replicate (i + 1) 'x')) = JsText.str "a-b".toList :=
        congrArg Prod.fst h
      have h2 := JsText.str.inj h1
      have h3 := congrArg List.head? h2
      simp [List.replicate_succ] at h3
    · rw [List.mem_singleton] at h
      have h1 : (JsText.str (List.replicate (i + 1) 'x')) = JsText.str "a".toList :=
        congrArg Prod.fst h
      have h2 := JsText.str.inj h1
      have h3 := congrArg List.head? h2
      simp [List.replicate_succ] at h3
  have hsub : L ⊆ (collidingPage.map (fun r => (r.district_name, r.fin_year, r.month))).dedup := by
    intro t ht
    rw [List.mem_dedup]
    have hfront : L = (List.map (fun r => (r.district_name, r.fin_year, r.month))
        ((List.range 198).map
          (fun i => upRecord (List.replicate (i + 1) 'x') "2023".toList "May".toList) ++
        [upRecord "a-b".toList "c".toList "May".toList,
         upRecord "a".toList "b-c".toList "May".toList])) := by
      simp only [L, g, List.map_append, List.map_map]
      rfl
    rw [hfront] at ht
    unfold collidingPage
    rw [List.map_append]
    exact List.mem_append_left _ ht
  have := (hnd.subperm hsub).length_le
  have hlen : L.length = 200 := by simp [L]
  omega

/-- C10, the code at the failing input: the first page holds 300 matching
records with 200 distinct (district_name, fin_year, month) triples, so the
stopping condition counted on triples holds at page index 0 and one request is
due; two of the triples give the same combination string, the set of line 45
has fewer than 200 elements and a second request is made at offset 10. -/
theorem fetch_counts_strings_not_triples :
    stopsAtByTriples collidingPages 0 ∧
    uniqueCombos (matchesBefore collidingPages 1) < 200 ∧
    (fetchFromGov (fun o => Response.page (collidingPages o))).requests = [0, 10] := by
  refine ⟨?_, ?_, ?_⟩
  · right
    rw [matchesBefore_collidingPages, length_collidingPage]
    exact ⟨le_refl _, distinctTriples_collidingPage⟩
  · rw [matchesBefore_collidingPages]
    exact Nat.lt_succ_of_le uniqueCombos_collidingPage
  · have h0 : ¬ stopsAt collidingPages 0 := by
      rintro (h | ⟨_, h⟩)
      · have : collidingPages (limit * 0) = collidingPage := by
          simp [collidingPages]
        rw [this, length_collidingPage] at h
        omega
      · rw [matchesBefore_collidingPages] at h
        have := uniqueCombos_collidingPage
        omega
    have h1 : stopsAt collidingPages 1 := Or.inl rfl
    exact (fetchLoop_requests collidingPages maxPages 0).1 1 (by omega) (by decide) h1
      (fun j _ hj => by
        have : j = 0 := by omega
        subst this
        exact h0)

/-! ### Failed requests (C11) -/

theorem fetchLoop_continue_remote (remote : Nat → Response) (pagesLeft p : Nat)
    (hok : remote (limit * p) ≠ Response.failed) (h : ¬ stopsAt (pagesOf remote) p) :
    fetchLoop remote (pagesLeft + 1) (limit * p)
      (matchesBefore (pagesOf remote) p) (pageOffsets p) =
    fetchLoop remote pagesLeft (limit * (p + 1))
      (matchesBefore (pagesOf remote) (p + 1)) (pageOffsets (p + 1)) := by
  cases hr : remote (limit * p) with
  | failed => exact absurd hr hok
  | page records =>
    have hpages : pagesOf remote (limit * p) = records := by
      simp only [pagesOf, hr]
    have hempty : ¬ records.length = 0 := fun h' => h (Or.inl (by rw [hpages]; exact h'))
    have hthr : ¬ (300 ≤ (matchesBefore (pagesOf remote) (p + 1)).length ∧
        200 ≤ uniqueCombos (matchesBefore (pagesOf remote) (p + 1))) := fun h' => h (Or.inr h')
    rw [matchesBefore_succ, hpages] at hthr
    rw [pageOffsets_succ, matchesBefore_succ, hpages]
    simp only [fetchLoop, hr, if_neg hempty]
    simp only [if_neg hthr]
    rfl

theorem fetchLoop_failure (remote : Nat → Response) (f pagesLeft p : Nat) (hp : p ≤ f)
    (hlt : f < p + pagesLeft) (hfail : remote (limit * f) = Response.failed)
    (hbefore : ∀ j, p ≤ j → j < f →
      remote (limit * j) ≠ Response.failed ∧ ¬ stopsAt (pagesOf remote) j) :
    fetchLoop remote pagesLeft (limit * p) (matchesBefore (pagesOf remote) p) (pageOffsets p) =
      ⟨pageOffsets (f + 1), none⟩ := by
  induction pagesLeft generalizing p with
  | zero => omega
  | succ n ih =>
    by_cases hpf : p = f
    · subst hpf
      rw [pageOffsets_succ]
      simp only [fetchLoop, hfail]
    · obtain ⟨hok, hno⟩ := hbefore p (le_refl p) (by omega)
      rw [fetchLoop_continue_remote remote n p hok hno]
      exact ih (p + 1) (by omega) (by omega) (fun j hj1 hj2 => hbefore j (by omega) hj2)

theorem sync_of_no_data {σ : Type} (remote : Nat → Response)
    (updateOne : σ → District → Bool × σ) (st : σ)
    (h : (fetchFromGov remote).records = none) :
    (sync remote updateOne st).summary = ⟨"none".toList, 0, 0⟩ ∧
    (sync remote updateOne st).store = st ∧
    (sync remote updateOne st).attempted = [] := by
  simp only [sync, h, List.length_nil, if_true, and_self]

theorem sync_requests {σ : Type} (remote : Nat → Response)
    (updateOne : σ → District → Bool × σ) (st : σ) :
    (sync remote updateOne st).requests = (fetchFromGov remote).requests := by
  unfold sync
  simp only
  split <;> rfl

/-- C11: when the request of page index `f` fails and no earlier request failed
or met a stopping condition, `fetchFromGov` has requested the offsets of the
pages `0..f` once each, the failed request being the last, and returns `null`
whatever was accumulated; `sync` then returns the summary
`{source: 'none', count: 0, upserted: 0}`, leaves the store alone and attempts
no write. -/
theorem fetch_failure_gives_no_data (remote : Nat → Response) (f : Nat) (hf : f < 1500)
    (hfail : remote (limit * f) = Response.failed)
    (hbefore : ∀ j, j < f →
      remote (limit * j) ≠ Response.failed ∧ ¬ stopsAt (pagesOf remote) j) :
    fetchFromGov remote = ⟨pageOffsets (f + 1), none⟩ ∧
    ∀ (σ : Type) (updateOne : σ → District → Bool × σ) (st : σ),
      (sync remote updateOne st).summary = ⟨"none".toList, 0, 0⟩ ∧
      (sync remote updateOne st).store = st ∧
      (sync remote updateOne st).attempted = [] ∧
      (sync remote updateOne st).requests = pageOffsets (f + 1) := by
  have hfetch : fetchFromGov remote = ⟨pageOffsets (f + 1), none⟩ :=
    fetchLoop_failure remote f maxPages 0 (Nat.zero_le f) (by simpa [maxPages] using hf) hfail
      (fun j _ hj => hbefore j hj)
  refine ⟨hfetch, ?_⟩
  intro σ updateOne st
  obtain ⟨h1, h2, h3⟩ := sync_of_no_data remote updateOne st (by rw [hfetch])
  refine ⟨h1, h2, h3, ?_⟩
  rw [sync_requests, hfetch]

/-- Witness of `fetch_failure_gives_no_data`: after a first page with one
matching record the second request fails; the requests are those at offsets 0
and 10 and the result is `null`. -/
theorem fetch_failure_gives_no_data_witness :
    (1 < 1500 ∧ failingSource (limit * 1) = Response.failed ∧
      ∀ j, j < 1 →
        failingSource (limit * j) ≠ Response.failed ∧ ¬ stopsAt (pagesOf failingSource) j) ∧
    (fetchFromGov failingSource = ⟨[0, 10], none⟩ ∧
      ∀ (σ : Type) (updateOne : σ → District → Bool × σ) (st : σ),
        (sync failingSource updateOne st).summary = ⟨"none".toList, 0, 0⟩ ∧
        (sync failingSource updateOne st).store = st ∧
        (sync failingSource updateOne st).attempted = [] ∧
        (sync failingSource updateOne st).requests = [0, 10]) :=
  ⟨⟨by decide, by decide, by decide⟩,
    fetch_failure_gives_no_data failingSource 1 (by decide) (by decide) (by decide)⟩

/-! ### Upserts (C12, C14) -/

theorem upsertLoop_eq {σ : Type} (updateOne : σ → District → Bool × σ) (ds : List District)
    (run : UpsertRun σ) :
    upsertLoop updateOne ds run =
      ⟨run.upserted + (writeOutcomes updateOne run.store ds).count true,
        ds.foldl (fun s d => (updateOne s d).2) run.store, run.attempted ++ ds⟩ := by
  induction ds generalizing run with
  | nil =>
    cases run
    simp [upsertLoop, writeOutcomes]
  | cons d rest ih =>
    simp only [upsertLoop, ih, writeOutcomes, List.foldl_cons, List.append_assoc,
      List.singleton_append]
    cases h : (updateOne run.store d).1
    · simp only [Bool.false_eq_true, if_false, List.count_cons]
      simp
    · simp only [if_true, List.count_cons]
      simp
      omega

theorem upsertDistricts_eq {σ : Type} (updateOne : σ → District → Bool × σ) (st : σ)
    (ds : List District) :
    upsertDistricts updateOne st ds =
      ⟨(writeOutcomes updateOne st ds).count true,
        ds.foldl (fun s d => (updateOne s d).2) st, ds⟩ := by
  unfold upsertDistricts
  rw [upsertLoop_eq]
  simp

theorem length_writeOutcomes {σ : Type} (updateOne : σ → District → Bool × σ) (st : σ)
    (ds : List District) : (writeOutcomes updateOne st ds).length = ds.length := by
  induction ds generalizing st with
  | nil => rfl
  | cons d rest ih => simp [writeOutcomes, ih]

theorem sync_eq_upsert {σ : Type} (remote : Nat → Response)
    (updateOne : σ → District → Bool × σ) (st : σ) :
    (sync remote updateOne st).summary.count = (collectedDistricts remote).length ∧
    (sync remote updateOne st).summary.upserted =
      (upsertDistricts updateOne st (collectedDistricts remote)).upserted ∧
    (sync remote updateOne st).attempted = collectedDistricts remote := by
  have hsync : sync remote updateOne st =
      if (collectedDistricts remote).length = 0 then
        ⟨⟨"none".toList, 0, 0⟩, st, (fetchFromGov remote).requests, []⟩
      else
        ⟨⟨if (fetchFromGov remote).records.isSome then "data.gov.in".toList
            else "none".toList,
            (collectedDistricts remote).length,
            (upsertDistricts updateOne st (collectedDistricts remote)).upserted⟩,
          (upsertDistricts updateOne st (collectedDistricts remote)).store,
          (fetchFromGov remote).requests,
          (upsertDistricts updateOne st (collectedDistricts remote)).attempted⟩ := rfl
  rw [hsync]
  by_cases h : (collectedDistricts remote).length = 0
  · have hnil : collectedDistricts remote = [] := List.length_eq_zero.1 h
    rw [if_pos h, hnil]
    exact ⟨rfl, rfl, rfl⟩
  · rw [if_neg h, upsertDistricts_eq]
    exact ⟨rfl, rfl, rfl⟩

/-- C12: for every storage, store and district list, `upsertDistricts` attempts
the write of every entity once, in list order, whatever the outcome of the
earlier writes, and returns as `upserted` the number of writes that succeeded,
which is at most the length of the list; `sync` reports that number, and the
number of transformed districts as `count`. -/
theorem upsert_counts_successes {σ : Type} (updateOne : σ → District → Bool × σ) (st : σ)
    (ds : List District) :
    (upsertDistricts updateOne st ds).attempted = ds ∧
    (upsertDistricts updateOne st ds).upserted = (writeOutcomes updateOne st ds).count true ∧
    (upsertDistricts updateOne st ds).upserted ≤ ds.length ∧
    ∀ remote : Nat → Response,
      (sync remote updateOne st).attempted = collectedDistricts remote ∧
      (sync remote updateOne st).summary.upserted =
        (upsertDistricts updateOne st (collectedDistricts remote)).upserted ∧
      (sync remote updateOne st).summary.count = (collectedDistricts remote).length ∧
      (sync remote updateOne st).summary.upserted ≤ (sync remote updateOne st).summary.count := by
  have hle : ∀ l : List District, (upsertDistricts updateOne st l).upserted ≤ l.length := by
    intro l
    rw [upsertDistricts_eq]
    exact (List.count_le_length _ _).trans (le_of_eq (length_writeOutcomes updateOne st l))
  refine ⟨by rw [upsertDistricts_eq], by rw [upsertDistricts_eq], hle ds, ?_⟩
  intro remote
  obtain ⟨h1, h2, h3⟩ := sync_eq_upsert remote updateOne st
  refine ⟨h3, h2, h1, ?_⟩
  rw [h1, h2]
  exact hle _

/-- An instance of `upsert_counts_successes`: with a storage that rejects the
writes of slug `b`, the three entities `a`, `b`, `c` are all attempted and two
writes are counted. -/
theorem upsert_counts_successes_witness :
    (upsertDistricts (failingFor "b".toList) []
      [storedDistrict "a" [], storedDistrict "b" [], storedDistrict "c" []]).attempted =
      [storedDistrict "a" [], storedDistrict "b" [], storedDistrict "c" []] ∧
    (upsertDistricts (failingFor "b".toList) []
      [storedDistrict "a" [], storedDistrict "b" [], storedDistrict "c" []]).upserted = 2 ∧
    (upsertDistricts (failingFor "b".toList) []
      [storedDistrict "a" [], storedDistrict "b" [], storedDistrict "c" []]).store =
      ["a".toList, "c".toList] :=
  ⟨(upsert_counts_successes (failingFor "b".toList) []
      [storedDistrict "a" [], storedDistrict "b" [], storedDistrict "c" []]).1,
    by decide, by decide⟩

theorem foldl_storeUpsert_of_not_mem (ds : List District) (st : Store) (slug : Str)
    (h : slug ∉ ds.map (fun d => d.slug)) :
    (ds.foldl (fun s d => (storeUpsert s d).2) st) slug = st slug := by
  induction ds generalizing st with
  | nil => rfl
  | cons d rest ih =>
    simp only [List.map_cons, List.mem_cons, not_or] at h
    rw [List.foldl_cons, ih _ h.2]
    simp only [storeUpsert, if_neg h.1]

theorem foldl_storeUpsert_last (pre post : List District) (d : District) (st : Store)
    (h : ∀ e ∈ post, e.slug ≠ d.slug) :
    ((pre ++ d :: post).foldl (fun s d => (storeUpsert s d).2) st) d.slug = some d.document := by
  rw [List.foldl_append, List.foldl_cons, foldl_storeUpsert_of_not_mem]
  · simp only [storeUpsert, if_true]
  · intro hmem
    obtain ⟨e, he, hes⟩ := List.mem_map.1 hmem
    exact h e he hes

theorem exists_last_with_slug (ds : List District) (slug : Str)
    (h : slug ∈ ds.map (fun d => d.slug)) :
    ∃ pre d post, ds = pre ++ d :: post ∧ d.slug = slug ∧ ∀ e ∈ post, e.slug ≠ slug := by
  induction ds with
  | nil => cases h
  | cons x rest ih =>
    by_cases hrest : slug ∈ rest.map (fun d => d.slug)
    · obtain ⟨pre, d, post, heq, hd, hpost⟩ := ih hrest
      exact ⟨x :: pre, d, post, by rw [heq]; rfl, hd, hpost⟩
    · refine ⟨[], x, rest, rfl, ?_, ?_⟩
      · simp only [List.map_cons, List.mem_cons] at h
        rcases h with h | h
        · exact h.symm
        · exact absurd h hrest
      · intro e he hes
        exact hrest (List.mem_map.2 ⟨e, he, hes⟩)

/-- C14, as amended: on a store that is a map from slug to document and never
rejects a write, applying `upsertDistricts(ds)` a second time leaves the store
of the first application unchanged; every slug present before is present
afterwards; the documents of slugs that do not occur in `ds` are unchanged; and
every slug occurring in `ds` ends up with the state, district, bbox and series
of the last entity of `ds` carrying that slug. -/
theorem upsert_idempotent_accumulating (st : Store) (ds : List District) :
    (upsertDistricts storeUpsert (upsertDistricts storeUpsert st ds).store ds).store =
      (upsertDistricts storeUpsert st ds).store ∧
    (∀ slug, (st slug).isSome → ((upsertDistricts storeUpsert st ds).store slug).isSome) ∧
    (∀ slug, slug ∉ ds.map (fun d => d.slug) →
      (upsertDistricts storeUpsert st ds).store slug = st slug) ∧
    (∀ pre d post, ds = pre ++ d :: post → (∀ e ∈ post, e.slug ≠ d.slug) →
      (upsertDistricts storeUpsert st ds).store d.slug = some d.document) := by
  simp only [upsertDistricts_eq]
  refine ⟨?_, ?_, ?_, ?_⟩
  · funext slug
    by_cases h : slug ∈ ds.map (fun d => d.slug)
    · obtain ⟨pre, d, post, heq, hd, hpost⟩ := exists_last_with_slug ds slug h
      subst hd
      rw [heq, foldl_storeUpsert_last pre post d _ hpost,
        foldl_storeUpsert_last pre post d _ hpost]
    · rw [foldl_storeUpsert_of_not_mem ds _ slug h]
  · intro slug hsome
    by_cases h : slug ∈ ds.map (fun d => d.slug)
    · obtain ⟨pre, d, post, heq, hd, hpost⟩ := exists_last_with_slug ds slug h
      subst hd
      rw [heq, foldl_storeUpsert_last pre post d _ hpost]
      rfl
    · rw [foldl_storeUpsert_of_not_mem ds _ slug h]
      exact hsome
  · intro slug h
    exact foldl_storeUpsert_of_not_mem ds st slug h
  · intro pre d post heq hpost
    rw [heq]
    exact foldl_storeUpsert_last pre post d st hpost

/-- C14, counterexample: the two entities returned for `'Uttar Pradesh'` and
`'UTTAR PRADESH'` with `'Lucknow'` carry the same slug; after the upsert the
slug holds the state of the second entity, not that of the first. -/
theorem upsert_last_entity_wins :
    (transformRecordsToDistricts
        [{ state_name := .str "Uttar Pradesh".toList, district_name := .str "Lucknow".toList },
         { state_name := .str "UTTAR PRADESH".toList, district_name := .str "Lucknow".toList }]).map
      (fun D => (D.slug, D.state)) =
      [("uttar-pradesh-lucknow".toList, "Uttar Pradesh".toList),
       ("uttar-pradesh-lucknow".toList, "UTTAR PRADESH".toList)] ∧
    ((upsertDistricts storeUpsert emptyStore
      (transformRecordsToDistricts
        [{ state_name := .str "Uttar Pradesh".toList, district_name := .str "Lucknow".toList },
         { state_name := .str "UTTAR PRADESH".toList,
           district_name := .str "Lucknow".toList }])).store
      "uttar-pradesh-lucknow".toList).map (fun doc => doc.state) =
      some "UTTAR PRADESH".toList := by
  decide

/-! ### Geographic lookup (C13) -/

theorem bboxMatches_iff (lat lon : ℚ) (d : District) :
    bboxMatches lat lon d = true ↔ InsideBbox lat lon d := by
  unfold bboxMatches InsideBbox
  generalize d.bbox = b
  rcases b with _ | ⟨w, _ | ⟨s, _ | ⟨e, _ | ⟨n, _ | ⟨x, r⟩⟩⟩⟩⟩
  · simp
  · simp
  · simp
  · simp
  · constructor
    · intro h
      simp only [Bool.and_eq_true, decide_eq_true_eq, ge_iff_le] at h
      exact ⟨w, s, e, n, rfl, h.1.1.1, h.1.1.2, h.1.2, h.2⟩
    · rintro ⟨w', s', e', n', heq, h1, h2, h3, h4⟩
      simp only [List.cons.injEq, and_true] at heq
      obtain ⟨rfl, rfl, rfl, rfl⟩ := heq
      simp only [Bool.and_eq_true, decide_eq_true_eq, ge_iff_le]
      exact ⟨⟨⟨h1, h2⟩, h3⟩, h4⟩
  · simp

theorem find_first_match (p : District → Bool) (pre post : List District) (d : District)
    (hd : p d = true) (hpre : ∀ x ∈ pre, p x = false) :
    (pre ++ d :: post).find? p = some d := by
  induction pre with
  | nil => simp [List.find?, hd]
  | cons x xs ih =>
    have hx : p x = false := hpre x (List.mem_cons_self _ _)
    simp only [List.cons_append, List.find?, hx]
    exact ih (fun y hy => hpre y (List.mem_cons_of_mem _ hy))

/-- C13: for every list of stored districts and every numeric latitude and
longitude, the handler of `/api/lookup` returns the first district in list
order whose bbox has exactly four numbers `[w, s, e, n]` with `w ≤ lon ≤ e`
and `s ≤ lat ≤ n`, and answers not-found exactly when no stored district has
such a bbox. -/
theorem lookup_returns_first_match (all : List District) (lat lon : ℚ) :
    (∀ pre d post, all = pre ++ d :: post → InsideBbox lat lon d →
      (∀ x ∈ pre, ¬ InsideBbox lat lon x) →
      lookupHandler all (some lat) (some lon) = LookupReply.ok d) ∧
    (lookupHandler all (some lat) (some lon) = LookupReply.notFound ↔
      ∀ d ∈ all, ¬ InsideBbox lat lon d) := by
  refine ⟨?_, ?_⟩
  · intro pre d post heq hd hpre
    have hfind : all.find? (bboxMatches lat lon) = some d := by
      rw [heq]
      apply find_first_match _ pre post d ((bboxMatches_iff lat lon d).2 hd)
      intro x hx
      cases hb : bboxMatches lat lon x
      · rfl
      · exact absurd ((bboxMatches_iff lat lon x).1 hb) (hpre x hx)
    simp only [lookupHandler, hfind]
  · constructor
    · intro h d hd hin
      have hm : bboxMatches lat lon d = true := (bboxMatches_iff lat lon d).2 hin
      cases hfind : all.find? (bboxMatches lat lon) with
      | none =>
        have := List.find?_eq_none.1 hfind d hd
        exact this hm
      | some e =>
        simp only [lookupHandler, hfind] at h
        cases h
    · intro h
      have hfind : all.find? (bboxMatches lat lon) = none := by
        apply List.find?_eq_none.2
        intro d hd hm
        exact h d hd ((bboxMatches_iff lat lon d).1 hm)
      simp only [lookupHandler, hfind]

/-- An instance of `lookup_returns_first_match`: with Kanpur Nagar and Lucknow
stored, the point (26.9, 81) lies in the bbox of Lucknow only and Lucknow is
returned. -/
theorem lookup_returns_first_match_witness :
    lookupHandler
      [storedDistrict "kanpur-nagar" [80.2, 26.3, 80.7, 26.6],
       storedDistrict "lucknow" [80.8, 26.7, 81.2, 27.1]] (some 26.9) (some 81) =
      LookupReply.ok (storedDistrict "lucknow" [80.8, 26.7, 81.2, 27.1]) :=
  (lookup_returns_first_match
      [storedDistrict "kanpur-nagar" [80.2, 26.3, 80.7, 26.6],
       storedDistrict "lucknow" [80.8, 26.7, 81.2, 27.1]] 26.9 81).1
    [storedDistrict "kanpur-nagar" [80.2, 26.3, 80.7, 26.6]]
    (storedDistrict "lucknow" [80.8, 26.7, 81.2, 27.1]) [] rfl
    ⟨80.8, 26.7, 81.2, 27.1, rfl, by norm_num, by norm_num, by norm_num, by norm_num⟩
    (by
      intro x hx
      rw [List.mem_singleton] at hx
      subst hx
      rintro ⟨w, s, e, n, heq, _, h2, _, _⟩
      have hbox : (storedDistrict "kanpur-nagar" [80.2, 26.3, 80.7, 26.6]).bbox =
          [80.2, 26.3, 80.7, 26.6] := rfl
      rw [hbox] at heq
      simp only [List.cons.injEq, and_true] at heq
      obtain ⟨_, _, rfl, _⟩ := heq
      norm_num at h2)

/-! ### Lexicographic order of the series (C2) -/

theorem collationElement_plain (c : Char) (h : isPlainChar c = true) :
    collationElement c = some (plainWeight c.toNat, if isUpperAscii c then 1 else 0) := by
  unfold isPlainChar isDigit isUpperAscii isLowerAscii at h
  unfold collationElement plainWeight isUpperAscii
  simp only [Bool.or_eq_true, Bool.and_eq_true, decide_eq_true_eq, beq_iff_eq] at h
  generalize c.toNat = n at h ⊢
  simp only
  rcases h with ((h | h) | h) | h
  · subst h
    decide
  · obtain ⟨h1, h2⟩ := h
    interval_cases n <;> decide
  · obtain ⟨h1, h2⟩ := h
    have e1 : ¬ (97 ≤ n ∧ n ≤ 122) := by omega
    have e2 : ¬ 97 ≤ n := by omega
    simp [e1, e2, h1, h2]
  · obtain ⟨h1, h2⟩ := h
    have e3 : ¬ (65 ≤ n ∧ n ≤ 90) := by omega
    simp [h1, h2, e3]

theorem plainWeight_pos (c : Char) (h : isPlainChar c = true) : 0 < plainWeight c.toNat := by
  unfold isPlainChar isDigit isUpperAscii isLowerAscii at h
  simp only [Bool.or_eq_true, Bool.and_eq_true, decide_eq_true_eq, beq_iff_eq] at h
  unfold plainWeight
  split_ifs <;> omega

theorem plainWeight_lt_iff (x y : Char) (hx : isPlainChar x = true) (hy : isPlainChar y = true)
    (h1 : (isUpperAscii x && isLowerAscii y) = false)
    (h2 : (isLowerAscii x && isUpperAscii y) = false) :
    plainWeight x.toNat < plainWeight y.toNat ↔ x.toNat < y.toNat := by
  unfold isPlainChar isDigit isUpperAscii isLowerAscii at hx hy
  unfold isUpperAscii isLowerAscii at h1 h2
  simp only [Bool.or_eq_true, Bool.and_eq_true, decide_eq_true_eq, beq_iff_eq,
    Bool.and_eq_false_iff, decide_eq_false_iff_not] at hx hy h1 h2
  unfold plainWeight
  split_ifs <;> omega

theorem sortKey_plain (s : Str) (h : plainKey s = true) :
    ∃ T, sortKey s = s.map (fun c => plainWeight c.toNat) ++ 0 :: T := by
  refine ⟨s.filterMap (fun c => (collationElement c).map Prod.snd), ?_⟩
  unfold sortKey
  congr 1
  induction s with
  | nil => rfl
  | cons c cs ih =>
    have hc : isPlainChar c = true ∧ plainKey cs = true := by
      simpa [plainKey] using h
    rw [List.filterMap_cons, collationElement_plain c hc.1]
    simp only [Option.map_some', List.map_cons]
    rw [ih hc.2]

theorem lexLe_of_compareKeys (a b : Str) (T1 T2 : List Nat) (ha : plainKey a = true)
    (hb : plainKey b = true) (hal : caseAligned a b = true)
    (h : compareKeys (a.map (fun c => plainWeight c.toNat) ++ 0 :: T1)
      (b.map (fun c => plainWeight c.toNat) ++ 0 :: T2) ≤ 0) : lexLe a b = true := by
  induction a generalizing b with
  | nil => rfl
  | cons x xs ih =>
    have hx : isPlainChar x = true ∧ plainKey xs = true := by simpa [plainKey] using ha
    cases b with
    | nil =>
      have hpos := plainWeight_pos x hx.1
      simp only [List.map_cons, List.cons_append, List.map_nil, List.nil_append,
        compareKeys] at h
      have e1 : ¬ plainWeight x.toNat < 0 := by omega
      simp [e1, hpos] at h
    | cons y ys =>
      have hy : isPlainChar y = true ∧ plainKey ys = true := by simpa [plainKey] using hb
      simp only [caseAligned, Bool.and_eq_true, Bool.not_eq_true'] at hal
      obtain ⟨⟨hm1, hm2⟩, hrest⟩ := hal
      have hxy := plainWeight_lt_iff x y hx.1 hy.1 hm1 hm2
      have hyx := plainWeight_lt_iff y x hy.1 hx.1
        (by rw [Bool.and_comm]; exact hm2) (by rw [Bool.and_comm]; exact hm1)
      simp only [List.map_cons, List.cons_append, compareKeys] at h
      simp only [lexLe]
      by_cases hlt : x.toNat < y.toNat
      · simp [hlt]
      · by_cases hgt : y.toNat < x.toNat
        · have e1 : ¬ plainWeight x.toNat < plainWeight y.toNat := fun h' => hlt (hxy.1 h')
          have e2 : plainWeight y.toNat < plainWeight x.toNat := hyx.2 hgt
          simp [e1, e2] at h
        · have e1 : ¬ plainWeight x.toNat < plainWeight y.toNat := fun h' => hlt (hxy.1 h')
          have e2 : ¬ plainWeight y.toNat < plainWeight x.toNat := fun h' => hgt (hyx.1 h')
          simp only [e1, e2, if_false] at h
          simp only [hlt, hgt, if_false]
          exact ih ys hx.2 hy.2 hrest h

theorem lexLe_of_localeCompare (a b : Str) (ha : plainKey a = true) (hb : plainKey b = true)
    (hal : caseAligned a b = true) (h : localeCompare a b ≤ 0) : lexLe a b = true := by
  obtain ⟨T1, h1⟩ := sortKey_plain a ha
  obtain ⟨T2, h2⟩ := sortKey_plain b hb
  unfold localeCompare at h
  rw [h1, h2] at h
  exact lexLe_of_compareKeys a b T1 T2 ha hb hal h

theorem updateSeriesMap_months_nodup (sm : List (Str × ℚ)) (m : Str) (q : ℚ)
    (h : (sm.map Prod.fst).Nodup) : ((updateSeriesMap sm m q).map Prod.fst).Nodup := by
  unfold updateSeriesMap
  cases hl : sm.lookup m with
  | some v =>
    simp only
    have hkey : m ∈ sm.map Prod.fst :=
      List.mem_map.2 ⟨_, mem_of_lookup_eq_some _ _ _ hl, rfl⟩
    split
    · rw [map_fst_setProp_of_mem _ _ _ hkey]; exact h
    · exact h
  | none =>
    simp only
    have hkey : m ∉ sm.map Prod.fst := (lookup_eq_none_iff _ _).1 hl
    split
    · exact h
    · rw [setProp_of_not_mem _ _ _ hkey, List.map_append]
      exact List.Nodup.append h (List.nodup_singleton _)
        (by
          intro x hx hx'
          simp only [List.map_cons, List.map_nil, List.mem_singleton] at hx'
          exact hkey (hx' ▸ hx))

theorem recordSeriesStep_months_nodup (sm : List (Str × ℚ)) (r : RawRecord)
    (h : (sm.map Prod.fst).Nodup) : ((recordSeriesStep sm r).map Prod.fst).Nodup := by
  unfold recordSeriesStep
  cases extractMetric r with
  | none => exact h
  | some q =>
    simp only
    split
    · exact updateSeriesMap_months_nodup sm _ q h
    · exact h

theorem transformStep_monthsDistinct (map : List (Str × Group)) (r : RawRecord)
    (h : MonthsDistinct map) : MonthsDistinct (transformStep map r) := by
  cases hk : recordKey r with
  | none => rw [transformStep_of_recordKey_none map r hk]; exact h
  | some k =>
    obtain ⟨_, hstep⟩ := transformStep_of_recordKey_some map r k hk
    rw [hstep]
    intro e he
    obtain ⟨g, hg, hor⟩ := mem_modifyGroup _ _ _ e he
    have hbase : (g.seriesMap.map Prod.fst).Nodup := by
      by_cases hmem : k ∈ map.map Prod.fst
      · rw [if_pos hmem] at hg
        exact h _ hg
      · rw [if_neg hmem] at hg
        rcases List.mem_append.1 hg with hg | hg
        · exact h _ hg
        · simp only [List.mem_singleton, Prod.mk.injEq] at hg
          obtain ⟨_, h2⟩ := hg
          subst h2
          exact List.nodup_nil
    rcases hor with hor | ⟨_, hor⟩
    · rw [hor]; exact hbase
    · rw [hor]; exact recordSeriesStep_months_nodup _ r hbase

theorem foldl_transformStep_monthsDistinct (rs : List RawRecord) (map : List (Str × Group))
    (h : MonthsDistinct map) : MonthsDistinct (rs.foldl transformStep map) := by
  induction rs generalizing map with
  | nil => exact h
  | cons r rest ih => exact ih _ (transformStep_monthsDistinct map r h)

theorem caseAligned_of_lower (a b : Str) (ha : a.all isLowerAscii = true)
    (hb : b.all isLowerAscii = true) : caseAligned a b = true := by
  induction a generalizing b with
  | nil => rfl
  | cons x xs ih =>
    cases b with
    | nil => rfl
    | cons y ys =>
      have hx : isLowerAscii x = true ∧ xs.all isLowerAscii = true := by simpa using ha
      have hy : isLowerAscii y = true ∧ ys.all isLowerAscii = true := by simpa using hb
      have ux : isUpperAscii x = false := by
        have := hx.1
        unfold isLowerAscii at this
        unfold isUpperAscii
        simp only [Bool.and_eq_true, decide_eq_true_eq] at this
        simp only [Bool.and_eq_false_iff, decide_eq_false_iff_not]
        omega
      have uy : isUpperAscii y = false := by
        have := hy.1
        unfold isLowerAscii at this
        unfold isUpperAscii
        simp only [Bool.and_eq_true, decide_eq_true_eq] at this
        simp only [Bool.and_eq_false_iff, decide_eq_false_iff_not]
        omega
      simp only [caseAligned, ux, uy, Bool.false_and, Bool.and_false, Bool.not_false,
        Bool.true_and]
      exact ih ys hx.2 hy.2

theorem not_letter_of_digit (c : Char) (h : isDigit c = true) :
    isUpperAscii c = false ∧ isLowerAscii c = false ∧ isPlainChar c = true := by
  unfold isDigit at h
  unfold isUpperAscii isLowerAscii isPlainChar isDigit
  simp only [Bool.and_eq_true, decide_eq_true_eq] at h
  simp only [Bool.and_eq_false_iff, decide_eq_false_iff_not, Bool.or_eq_true, Bool.and_eq_true,
    decide_eq_true_eq, beq_iff_eq]
  omega

theorem not_letter_of_hyphen (c : Char) (h : (c.toNat == 45) = true) :
    isUpperAscii c = false ∧ isLowerAscii c = false ∧ isPlainChar c = true := by
  unfold isUpperAscii isLowerAscii isPlainChar isDigit
  simp only [beq_iff_eq] at h
  simp only [Bool.and_eq_false_iff, decide_eq_false_iff_not, Bool.or_eq_true, Bool.and_eq_true,
    decide_eq_true_eq, beq_iff_eq]
  omega

theorem plainKey_of_lower (s : Str) (h : s.all isLowerAscii = true) : plainKey s = true := by
  unfold plainKey
  rw [List.all_eq_true] at h ⊢
  intro c hc
  have := h c hc
  unfold isPlainChar
  simp [this]

/-- Keys of the form `YYYY-YYYY-Month` are plain and pairwise case-aligned. -/
theorem fiscalMonthKey_plain_aligned (a b : Str) (ha : isFiscalMonthKey a = true)
    (hb : isFiscalMonthKey b = true) : plainKey a = true ∧ caseAligned a b = true := by
  rcases a with _ | ⟨a1, _ | ⟨a2, _ | ⟨a3, _ | ⟨a4, _ | ⟨a5, _ | ⟨a6, _ | ⟨a7, _ | ⟨a8, _ |
    ⟨a9, _ | ⟨a10, _ | ⟨a11, ar⟩⟩⟩⟩⟩⟩⟩⟩⟩⟩⟩ <;> simp only [isFiscalMonthKey] at ha <;>
    try (exact absurd ha (by decide))
  rcases b with _ | ⟨b1, _ | ⟨b2, _ | ⟨b3, _ | ⟨b4, _ | ⟨b5, _ | ⟨b6, _ | ⟨b7, _ | ⟨b8, _ |
    ⟨b9, _ | ⟨b10, _ | ⟨b11, br⟩⟩⟩⟩⟩⟩⟩⟩⟩⟩⟩ <;> simp only [isFiscalMonthKey] at hb <;>
    try (exact absurd hb (by decide))
  simp only [Bool.and_eq_true] at ha hb
  obtain ⟨⟨⟨⟨⟨⟨⟨⟨⟨⟨⟨x1, x2⟩, x3⟩, x4⟩, x5⟩, x6⟩, x7⟩, x8⟩, x9⟩, x10⟩, x11⟩, xr⟩ := ha
  obtain ⟨⟨⟨⟨⟨⟨⟨⟨⟨⟨⟨y1, y2⟩, y3⟩, y4⟩, y5⟩, y6⟩, y7⟩, y8⟩, y9⟩, y10⟩, y11⟩, yr⟩ := hb
  have hl11 : isLowerAscii a11 = false := by
    unfold isUpperAscii at x11
    unfold isLowerAscii
    simp only [Bool.and_eq_true, decide_eq_true_eq] at x11
    simp only [Bool.and_eq_false_iff, decide_eq_false_iff_not]
    omega
  have hl11' : isLowerAscii b11 = false := by
    unfold isUpperAscii at y11
    unfold isLowerAscii
    simp only [Bool.and_eq_true, decide_eq_true_eq] at y11
    simp only [Bool.and_eq_false_iff, decide_eq_false_iff_not]
    omega
  constructor
  · have hr := plainKey_of_lower ar xr
    unfold plainKey at hr ⊢
    simp only [List.all_cons, Bool.and_eq_true]
    refine ⟨(not_letter_of_digit a1 x1).2.2, (not_letter_of_digit a2 x2).2.2,
      (not_letter_of_digit a3 x3).2.2, (not_letter_of_digit a4 x4).2.2,
      (not_letter_of_hyphen a5 x5).2.2, (not_letter_of_digit a6 x6).2.2,
      (not_letter_of_digit a7 x7).2.2, (not_letter_of_digit a8 x8).2.2,
      (not_letter_of_digit a9 x9).2.2, (not_letter_of_hyphen a10 x10).2.2, ?_, hr⟩
    unfold isPlainChar
    simp [x11]
  · simp only [caseAligned, (not_letter_of_digit a1 x1).1, (not_letter_of_digit a2 x2).1,
      (not_letter_of_digit a3 x3).1, (not_letter_of_digit a4 x4).1,
      (not_letter_of_hyphen a5 x5).1, (not_letter_of_digit a6 x6).1,
      (not_letter_of_digit a7 x7).1, (not_letter_of_digit a8 x8).1,
      (not_letter_of_digit a9 x9).1, (not_letter_of_hyphen a10 x10).1,
      (not_letter_of_digit a1 x1).2.1, (not_letter_of_digit a2 x2).2.1,
      (not_letter_of_digit a3 x3).2.1, (not_letter_of_digit a4 x4).2.1,
      (not_letter_of_hyphen a5 x5).2.1, (not_letter_of_digit a6 x6).2.1,
      (not_letter_of_digit a7 x7).2.1, (not_letter_of_digit a8 x8).2.1,
      (not_letter_of_digit a9 x9).2.1, (not_letter_of_hyphen a10 x10).2.1,
      hl11, hl11', Bool.false_and, Bool.and_false, Bool.not_false, Bool.true_and]
    exact caseAligned_of_lower ar br xr yr

/-- C2, as amended: in every district returned by `transformRecordsToDistricts`
whose month keys are made of hyphens, digits and ASCII letters and are pairwise
case-aligned (as the keys of the form `YYYY-YYYY-Month` are), the series is
strictly increasing by month key under plain lexicographic comparison. -/
theorem series_sorted_lexicographic (rs : List RawRecord) (D : District)
    (hD : D ∈ transformRecordsToDistricts rs)
    (hplain : ∀ e ∈ D.series, plainKey e.month = true)
    (haligned : ∀ a ∈ D.series, ∀ b ∈ D.series, caseAligned a.month b.month = true) :
    D.series.Sorted (fun a b => lexLe a.month b.month = true ∧ a.month ≠ b.month) := by
  rw [transform_eq_map] at hD
  obtain ⟨e, he, rfl⟩ := List.mem_map.1 hD
  have hnd : (e.2.seriesMap.map Prod.fst).Nodup :=
    foldl_transformStep_monthsDistinct rs [] (fun x hx => by cases hx) e he
  have hne : List.Pairwise (fun a b : SeriesEntry => a.month ≠ b.month)
      (buildSeries e.2.seriesMap) :=
    List.pairwise_map.1 (buildSeries_months_nodup _ hnd)
  have hsorted : List.Pairwise seriesLe (buildSeries e.2.seriesMap) :=
    buildSeries_sorted e.2.seriesMap
  simp only [toDistrict] at hplain haligned ⊢
  refine List.Pairwise.imp_of_mem ?_ (hsorted.and hne)
  intro a b ha hb hab
  exact ⟨lexLe_of_localeCompare a.month b.month (hplain a ha) (hplain b hb)
    (haligned a ha b hb) hab.1, hab.2⟩

/-- Witness of `series_sorted_lexicographic`: the records of May, August and
April 2023-2024 and of April 2024-2025 give a series in lexicographic
order. -/
theorem series_sorted_lexicographic_witness :
    fourMonthsDistrict ∈ transformRecordsToDistricts fourMonths ∧
    (∀ e ∈ fourMonthsDistrict.series, isFiscalMonthKey e.month = true) ∧
    (∀ e ∈ fourMonthsDistrict.series, plainKey e.month = true) ∧
    (∀ a ∈ fourMonthsDistrict.series, ∀ b ∈ fourMonthsDistrict.series,
      caseAligned a.month b.month = true) ∧
    fourMonthsDistrict.series.Sorted
      (fun a b => lexLe a.month b.month = true ∧ a.month ≠ b.month) :=
  ⟨by decide, by decide, by decide, by decide,
    series_sorted_lexicographic fourMonths fourMonthsDistrict (by decide) (by decide)
      (by decide)⟩

end Mgnrega
